import Mathlib

set_option linter.unusedVariables false

/-!
Verification development for the dynamic route-registration and
API-specification-generation engine in `src/lib/handler.js`.

The JavaScript module is embedded shallowly: JavaScript objects become
insertion-ordered association lists, the mutable module-level registries
become an explicit state record threaded through every operation, and
`throw` becomes `Except String`.
-/

/-- Model of JavaScript values as manipulated by the handler.  Object fields
keep insertion order, as JavaScript objects do. -/
inductive Json where
  | null : Json
  | bool (b : Bool) : Json
  | num (n : Int) : Json
  | str (s : String) : Json
  | arr (elems : List Json) : Json
  | obj (fields : List (String × Json)) : Json

/-- JavaScript truthiness of a value. -/
def jsTruthy : Json → Bool
  | .null => false
  | .bool b => b
  | .num n => n != 0
  | .str s => s != ""
  | .arr _ => true
  | .obj _ => true

/-- Truthiness of `o[k]` where a missing property is `undefined` (falsy). -/
def optTruthy : Option Json → Bool
  | none => false
  | some j => jsTruthy j

/-- Property read on a JavaScript object (first matching key). -/
def alistGet {α : Type} (l : List (String × α)) (k : String) : Option α :=
  match l with
  | [] => none
  | (k', v) :: rest => if k' = k then some v else alistGet rest k

/-- Property write on a JavaScript object: an existing key keeps its position,
a new key is appended. -/
def alistSet {α : Type} (l : List (String × α)) (k : String) (v : α) : List (String × α) :=
  match l with
  | [] => [(k, v)]
  | (k', v') :: rest => if k' = k then (k, v) :: rest else (k', v') :: alistSet rest k v

/-- `Map.delete` / property removal. -/
def alistDelete {α : Type} (l : List (String × α)) (k : String) : List (String × α) :=
  match l with
  | [] => []
  | (k', v') :: rest => if k' = k then rest else (k', v') :: alistDelete rest k

/-- Whether `sub` is an initial segment of `l`. -/
def listStarts (sub l : List Char) : Bool :=
  match sub, l with
  | [], _ => true
  | _ :: _, [] => false
  | a :: subRest, b :: lRest => a == b && listStarts subRest lRest

/-- Whether `sub` occurs contiguously inside `l`. -/
def listHasSub (sub : List Char) : List Char → Bool
  | [] => listStarts sub []
  | c :: cs => listStarts sub (c :: cs) || listHasSub sub cs

/-- JavaScript `String.prototype.includes`. -/
def strIncludes (s sub : String) : Bool :=
  listHasSub sub.toList s.toList

/-- JavaScript `String.prototype.startsWith`. -/
def strStarts (s pre : String) : Bool :=
  listStarts pre.toList s.toList

/-- JavaScript `String.prototype.toLowerCase` (ASCII). -/
def jsToLower (s : String) : String :=
  String.mk (s.toList.map Char.toLower)

/-- JavaScript `String.prototype.toUpperCase` (ASCII). -/
def jsToUpper (s : String) : String :=
  String.mk (s.toList.map Char.toUpper)

/-- JavaScript `String.prototype.split` with a one-character separator. -/
def splitOnCharAux (c : Char) : List Char → List Char → List String
  | [], cur => [String.mk cur.reverse]
  | x :: xs, cur =>
      if x = c then String.mk cur.reverse :: splitOnCharAux c xs []
      else splitOnCharAux c xs (x :: cur)

/-- `s.split(c)` for a single-character separator. -/
def strSplitChar (c : Char) (s : String) : List String :=
  splitOnCharAux c s.toList []

/-- Left-to-right scan implementing the global regular expression
`/{([^}]+)}/g`: outside a match, an opening brace starts a capture; inside
one, every character up to the next closing brace is captured (the capture
is accumulated in reverse); at the closing brace a non-empty capture is
emitted and scanning resumes after it, exactly as the regex engine resumes
after a match (or after a failed empty match). -/
def braceScan (cur : Option (List Char)) : List Char → List String
  | [] => []
  | c :: cs =>
      match cur with
      | none => if c = '{' then braceScan (some []) cs else braceScan none cs
      | some cap =>
          if c = '}' then
            (if cap.isEmpty then [] else [String.mk cap.reverse]) ++ braceScan none cs
          else braceScan (some (c :: cap)) cs

/-- The successive captures of `path.match(/{([^}]+)}/g)`: each match
captures the non-empty run of characters strictly between a `{` and the
next `}`. -/
def extractBraceTokens (l : List Char) : List String :=
  braceScan none l

/-- Summary template keyed by the upper-cased verb (`generateSummary`). -/
def generateSummary (method resource : String) : String :=
  if method = "GET" then "Get " ++ resource
  else if method = "POST" then "Create " ++ resource
  else if method = "PUT" then "Update " ++ resource
  else if method = "PATCH" then "Partially update " ++ resource
  else if method = "DELETE" then "Delete " ++ resource
  else method ++ " " ++ resource

/-- Description template keyed by the upper-cased verb (`generateDescription`). -/
def generateDescription (method resource : String) : String :=
  if method = "GET" then "Retrieve " ++ resource ++ " items"
  else if method = "POST" then "Create a new " ++ resource ++ " with the provided data"
  else if method = "PUT" then "Update an existing " ++ resource ++ " with new data"
  else if method = "PATCH" then "Partially update an existing " ++ resource
  else if method = "DELETE" then "Remove an existing " ++ resource
  else "Perform " ++ method ++ " operation on " ++ resource

/-- One path parameter object as pushed by `extractParameters`. -/
def paramJson (paramName : String) : Json :=
  .obj [
    ("name", .str paramName),
    ("in", .str "path"),
    ("required", .bool true),
    ("description", .str (paramName ++ " identifier")),
    ("schema", .obj [("type", .str
      (if strIncludes paramName "id" || strIncludes paramName "Id" then "integer" else "string"))])]

/-- `extractParameters`: one required path parameter per `{name}` token. -/
def extractParameters (path : String) : List Json :=
  (extractBraceTokens path.toList).map paramJson

/-- `resource.charAt(0).toUpperCase() + resource.slice(1)`. -/
def capitalizeFirst (s : String) : String :=
  match s.toList with
  | [] => ""
  | c :: cs => String.mk (c.toUpper :: cs)

/-- `generateTagFromPath`: last non-parameter segment, capitalized. -/
def generateTagFromPath (path : String) : String :=
  let pathParts := (strSplitChar '/' path).filter (fun p => p != "" && !(strStarts p "\x7b"))
  match pathParts.getLast? with
  | none => "General"
  | some resource => capitalizeFirst resource

/-- Error schema shared by the default 500 response. -/
def errSchemaJson : Json :=
  .obj [("type", .str "object"),
        ("properties", .obj [("error", .obj [("type", .str "string")]),
                             ("message", .obj [("type", .str "string")])])]

/-- A `$ref` response object. -/
def refJson (target : String) : Json :=
  .obj [("$ref", .str target)]

/-- The inline 500 response of `generateDefaultResponses`. -/
def resp500Json : Json :=
  .obj [("description", .str "Internal server error"),
        ("content", .obj [("application/json", .obj [("schema", errSchemaJson)])])]

/-- `commonResponses` spread into every verb's response map. -/
def commonResponses : List (String × Json) :=
  [("400", refJson "#/components/responses/ValidationError"), ("500", resp500Json)]

/-- A success response with an inline object schema. -/
def okRespJson (desc schemaDesc : String) : Json :=
  .obj [("description", .str desc),
        ("content", .obj [("application/json",
          .obj [("schema", .obj [("type", .str "object"), ("description", .str schemaDesc)])])])]

def getResponses : List (String × Json) :=
  [("200", okRespJson "Successful response" "Response data"),
   ("404", refJson "#/components/responses/NotFoundError")] ++ commonResponses

def postResponses : List (String × Json) :=
  [("201", okRespJson "Resource created successfully" "Created resource data")] ++ commonResponses

def putResponses : List (String × Json) :=
  [("200", okRespJson "Resource updated successfully" "Updated resource data"),
   ("404", refJson "#/components/responses/NotFoundError")] ++ commonResponses

def patchResponses : List (String × Json) :=
  [("200", okRespJson "Resource partially updated successfully" "Updated resource data"),
   ("404", refJson "#/components/responses/NotFoundError")] ++ commonResponses

def deleteResponses : List (String × Json) :=
  [("204", .obj [("description", .str "Resource deleted successfully")]),
   ("404", refJson "#/components/responses/NotFoundError")] ++ commonResponses

/-- `generateDefaultResponses`, keyed by the upper-cased verb; unknown verbs
fall back to the GET responses. -/
def generateDefaultResponses (method : String) : Json :=
  .obj (if method = "GET" then getResponses
        else if method = "POST" then postResponses
        else if method = "PUT" then putResponses
        else if method = "PATCH" then patchResponses
        else if method = "DELETE" then deleteResponses
        else getResponses)

/-- The part of the loaded `config.json` the handler consults:
`config.publicPaths || ['/health', '/docs', '/openapi', '/ping']`. -/
structure AppConfig where
  publicPaths : Option (List String)

/-- `requiresAuth`: a path needs security entries unless it starts with a
configured public prefix. -/
def requiresAuth (cfg : AppConfig) (path : String) : Bool :=
  let pub := cfg.publicPaths.getD ["/health", "/docs", "/openapi", "/ping"]
  !(pub.any (fun publicPath => strStarts path publicPath))

/-- The security array attached to authenticated routes. -/
def securityJson : Json :=
  .arr [.obj [("bearerAuth", .arr [])], .obj [("apiKeyAuth", .arr [])]]

/-- The request body synthesized for POST/PUT/PATCH routes. -/
def requestBodyJson (resource : String) : Json :=
  .obj [("description", .str (resource ++ " data")),
        ("required", .bool true),
        ("content", .obj [("application/json",
          .obj [("schema", .obj [("type", .str "object"),
                                 ("description", .str (resource ++ " object"))])])])]

/-- The auto-generated path entry built inside `autoGenerateOpenApiSpec`
for one route of the route stack. -/
def autoEntry (cfg : AppConfig) (path method : String) : Json :=
  let methodUpper := jsToUpper method
  let pathSegments := (strSplitChar '/' path).filter (fun p => p != "")
  let resource := match pathSegments.getLast? with
    | some r => r
    | none => "resource"
  let base := [
    ("summary", Json.str (generateSummary methodUpper resource)),
    ("description", Json.str (generateDescription methodUpper resource)),
    ("tags", Json.arr [Json.str (generateTagFromPath path)]),
    ("parameters", Json.arr (extractParameters path)),
    ("responses", generateDefaultResponses methodUpper)]
  let base := if requiresAuth cfg path then base ++ [("security", securityJson)] else base
  let base := if method = "post" || method = "put" || method = "patch"
    then base ++ [("requestBody", requestBodyJson resource)] else base
  Json.obj base

/-- One bookkeeping record pushed onto `routeStack`. -/
structure StackEntry where
  path : String
  method : String
  routeName : String
deriving DecidableEq

/-- The verb-to-entry object stored under one path key of `paths`. -/
abbrev MethodMap := List (String × Json)

/-- The `paths` object of the OpenAPI document. -/
abbrev Paths := List (String × MethodMap)

/-- `paths[p][m]`, `none` when either level is missing. -/
def pathsLookup (ps : Paths) (p m : String) : Option Json :=
  match alistGet ps p with
  | some g => alistGet g m
  | none => none

/-- `if (!paths[p]) paths[p] = {}; paths[p][m] = e`. -/
def pathsSet (ps : Paths) (p m : String) (e : Json) : Paths :=
  alistSet ps p (alistSet ((alistGet ps p).getD []) m e)

/-- Whether an entry is flagged as hand-authored: `entry.customSpec` is truthy. -/
def entryIsCustom (e : Json) : Bool :=
  match e with
  | .obj fields => optTruthy (alistGet fields "customSpec")
  | _ => false

/-- Inner loop of the custom-entry re-add pass of `autoGenerateOpenApiSpec`. -/
def readdMethods (pathKey : String) (methods : MethodMap) (acc : Paths) : Paths :=
  match methods with
  | [] => acc
  | (m, entry) :: rest =>
      readdMethods pathKey rest (if entryIsCustom entry then pathsSet acc pathKey m entry else acc)

/-- First pass of `autoGenerateOpenApiSpec`: starting from a fresh `paths`
object, re-add every entry of the previous document flagged `customSpec`. -/
def readdCustomPaths (existing : Paths) (acc : Paths) : Paths :=
  match existing with
  | [] => acc
  | (pathKey, methods) :: rest => readdCustomPaths rest (readdMethods pathKey methods acc)

/-- One iteration of the route-stack pass of `autoGenerateOpenApiSpec`. -/
def addStackStep (cfg : AppConfig) (ps : Paths) (route : StackEntry) : Paths :=
  let ps := match alistGet ps route.path with
    | some _ => ps
    | none => alistSet ps route.path []
  let methods := (alistGet ps route.path).getD []
  if optTruthy (alistGet methods route.method) then ps
  else alistSet ps route.path (alistSet methods route.method (autoEntry cfg route.path route.method))

/-- Second pass of `autoGenerateOpenApiSpec`: generate an entry for every
route of the route stack that does not already have one. -/
def addStackRoutes (cfg : AppConfig) (ps : Paths) (stack : List StackEntry) : Paths :=
  match stack with
  | [] => ps
  | r :: rest => addStackRoutes cfg (addStackStep cfg ps r) rest

/-- The mutable parts of the OpenAPI document (`info`, `servers` and the
fixed `components` sections are constants of the source and never change). -/
structure OpenSpecDoc where
  paths : Paths
  tags : List Json
  schemas : List (String × Json)

/-- `autoGenerateOpenApiSpec`: re-add the custom entries of the previous
document, then generate an entry for every registered route. -/
def autoGenerateOpenApiSpec (cfg : AppConfig) (stack : List StackEntry) (spec : OpenSpecDoc) :
    OpenSpecDoc :=
  { spec with paths := addStackRoutes cfg (readdCustomPaths spec.paths []) stack }

/-- One entry of a validation error's `details` array. -/
structure ErrDetail where
  path : List String
  message : String
deriving DecidableEq

/-- The error object a schema's `validate` may return. -/
structure ErrObj where
  details : List ErrDetail
deriving DecidableEq

/-- Return value of `schema.validate(data)`. -/
structure ValResult where
  error : Option ErrObj
deriving DecidableEq

/-- An opaque validation schema: an optional `validate` capability plus the
two internal fields (`_type`, `_ids._byKey`) the spec converters read. -/
structure ValSchema where
  validateFn : Option (Json → ValResult)
  typeTag : Option String
  idsByKey : Option (List String)

/-- `validateSchema(data, schema)`: duck-typed dispatch on a `validate`
method; a schema without one reports no error. -/
def validateSchema (data : Json) (schema : ValSchema) : ValResult :=
  match schema.validateFn with
  | some f => f data
  | none => { error := none }

/-- The `validate` declaration of an object route: up to three schemas. -/
structure ValidateSpec where
  body : Option ValSchema
  params : Option ValSchema
  query : Option ValSchema

/-- The request parts the validation middleware inspects; `none` models an
absent (undefined) part. -/
structure Req where
  body : Option Json
  params : Option Json
  query : Option Json

/-- Observable behaviour of one middleware on a request: pass control on
with `next()` or terminate with a response. -/
inductive MWResult where
  | next
  | respond (status : Nat) (body : Json)

/-- A middleware function. -/
abbrev Mw := Req → MWResult

/-- Violations contributed by one request part: the part is validated only
when its schema is declared and the part itself is present and truthy. -/
def partErrors (schema : Option ValSchema) (part : Option Json) : List ErrDetail :=
  match schema, part with
  | some s, some d =>
      if jsTruthy d then
        match (validateSchema d s).error with
        | some e => e.details
        | none => []
      else []
  | _, _ => []

/-- The `errors` array accumulated by the synthesized validation middleware. -/
def collectErrors (validate : ValidateSpec) (req : Req) : List ErrDetail :=
  partErrors validate.body req.body ++ partErrors validate.params req.params
    ++ partErrors validate.query req.query

/-- The 400 body returned on validation failure: per-field violations with
the joined field path and the message. -/
def validationErrorBody (errors : List ErrDetail) : Json :=
  .obj [("error", .str "Validation Error"),
        ("message", .str "Request validation failed"),
        ("details", .arr (errors.map (fun e =>
          Json.obj [("field", .str (String.intercalate "." e.path)),
                    ("message", .str e.message)])))]

/-- `createValidationMiddleware`: respond 400 when any violations were
collected, otherwise call `next()`. -/
def createValidationMiddleware (validate : ValidateSpec) : Mw := fun req =>
  let errors := collectErrors validate req
  if errors.length > 0 then .respond 400 (validationErrorBody errors)
  else .next

/-- Run a pre-handler chain: the terminal handler executes exactly when
every middleware called `next()` (result `none`); otherwise the first
response short-circuits. -/
def runChain (chain : List Mw) (req : Req) : Option (Nat × Json) :=
  match chain with
  | [] => none
  | mw :: rest =>
      match mw req with
      | .next => runChain rest req
      | .respond st b => some (st, b)

/-- An opaque terminal handler value (the model only tracks identity). -/
structure HandlerFn where
  hid : Nat
deriving DecidableEq

/-- Shape of the `handler` property of a route declaration. -/
inductive HandlerField where
  | missing
  | notFn
  | fn (h : HandlerFn)

/-- Shape of the `method` property: absent (defaults to `'get'`), a single
verb string, or an array of verbs. -/
inductive MethodDecl where
  | absent
  | one (m : String)
  | many (ms : List String)

/-- `Array.isArray(method) ? method : [method]` with the `'get'` default. -/
def normalizeMethods : MethodDecl → List String
  | .absent => ["get"]
  | .one m => [m]
  | .many ms => ms

mutual
/-- An object-style route declaration (the destructured fields of
`registerObjectRoute`). -/
inductive RouteConfig : Type where
  | mk (path : Option String) (method : MethodDecl) (handler : HandlerField)
       (middlewares : List Mw) (validate : Option ValidateSpec)
       (openapi : Option (List (String × Json))) (plugin : Option PluginConfig) : RouteConfig

/-- A plugin declaration (the destructured fields of `registerPlugin`). -/
inductive PluginConfig : Type where
  | mk (name : Option String) (version : Option String) (dependencies : List String)
       (initHook : Option (Except String Unit)) (middleware : Option Mw)
       (routes : Option (List RouteConfig)) : PluginConfig
end

def RouteConfig.path : RouteConfig → Option String
  | .mk p _ _ _ _ _ _ => p

def RouteConfig.method : RouteConfig → MethodDecl
  | .mk _ m _ _ _ _ _ => m

def RouteConfig.handler : RouteConfig → HandlerField
  | .mk _ _ h _ _ _ _ => h

def RouteConfig.middlewares : RouteConfig → List Mw
  | .mk _ _ _ mws _ _ _ => mws

def RouteConfig.validate : RouteConfig → Option ValidateSpec
  | .mk _ _ _ _ v _ _ => v

def RouteConfig.openapi : RouteConfig → Option (List (String × Json))
  | .mk _ _ _ _ _ oa _ => oa

def RouteConfig.plugin : RouteConfig → Option PluginConfig
  | .mk _ _ _ _ _ _ pl => pl

def PluginConfig.name : PluginConfig → Option String
  | .mk n _ _ _ _ _ => n

def PluginConfig.version : PluginConfig → Option String
  | .mk _ v _ _ _ _ => v

def PluginConfig.dependencies : PluginConfig → List String
  | .mk _ _ d _ _ _ => d

def PluginConfig.initHook : PluginConfig → Option (Except String Unit)
  | .mk _ _ _ i _ _ => i

def PluginConfig.middleware : PluginConfig → Option Mw
  | .mk _ _ _ _ mw _ => mw

def PluginConfig.routes : PluginConfig → Option (List RouteConfig)
  | .mk _ _ _ _ _ r => r

/-- One handler registration mounted on the router primitive:
`router[method](path, ...preHandlers, handler)`. -/
structure MountedRoute where
  path : String
  method : String
  chain : List Mw
  handler : HandlerFn

/-- Value stored in the `routes` map for a registered module. -/
structure RouteVal where
  filePath : String
  rtype : String
  config : Option RouteConfig

/-- Value stored in the `plugins` map. -/
structure PluginVal where
  name : String
  version : String
  dependencies : List String
  routeName : String

/-- The module-level mutable state of the handler: the mounted router, the
three registries, the route stack, the OpenAPI document and the log sink. -/
structure RegState where
  routerEntries : List MountedRoute
  routes : List (String × RouteVal)
  middlewares : List (String × Mw)
  plugins : List (String × PluginVal)
  routeStack : List StackEntry
  spec : OpenSpecDoc
  log : List String

/-- `getGlobalMiddlewares`: the middleware map's values in insertion order. -/
def getGlobalMiddlewares (s : RegState) : List Mw :=
  s.middlewares.map Prod.snd

/-- `registerMiddleware` (the model's middleware values are always
functions, so the type check always passes). -/
def registerMiddleware (s : RegState) (name : String) (mw : Mw) : RegState :=
  { s with middlewares := alistSet s.middlewares name mw }

/-- `extractRouteName`: basename without extension, sanitized to
`[a-zA-Z0-9_-]` with `_` replacing every other character. -/
def extractRouteName (filePath : String) : String :=
  let base := (strSplitChar '/' filePath).getLastD ""
  let cs := base.toList
  let noExt := match cs.reverse.findIdx? (fun c => c == '.') with
    | some i =>
        let pos := cs.length - 1 - i
        if pos > 0 then cs.take pos else cs
    | none => cs
  String.mk (noExt.map (fun c => if c.isAlphanum || c = '_' || c = '-' then c else '_'))

/-- The verbs available as registration methods on an Express router. -/
def routerMethods : List String :=
  ["get", "post", "put", "head", "delete", "options", "trace", "copy", "lock", "mkcol",
   "move", "purge", "propfind", "proppatch", "unlock", "report", "mkactivity", "checkout",
   "merge", "m-search", "notify", "subscribe", "unsubscribe", "patch", "search", "connect",
   "all"]

/-- Truthiness of `routeRouter[methodLower]`. -/
def isRouterMethod (m : String) : Bool :=
  routerMethods.contains m

/-- `convertValidationToSchema`: use the schema's `_type` when truthy. -/
def convertValidationToSchema (validation : ValSchema) : Json :=
  match validation.typeTag with
  | some t => if t != "" then .obj [("type", .str t)] else .obj [("type", .str "object")]
  | none => .obj [("type", .str "object")]

/-- `convertParamsToOpenApi`: one parameter per key of `_ids._byKey`. -/
def convertParamsToOpenApi (validation : ValSchema) (paramType : String) : List Json :=
  match validation.idsByKey with
  | some keys => keys.map (fun key =>
      Json.obj [("name", .str key), ("in", .str paramType),
                ("required", .bool (paramType = "path")),
                ("schema", .obj [("type", .str "string")])])
  | none => []

/-- `v || dflt` on an optional object property. -/
def jsOrElse (v : Option Json) (dflt : Json) : Json :=
  match v with
  | some j => if jsTruthy j then j else dflt
  | none => dflt

/-- JavaScript strict equality restricted to primitives (object operands
compare by reference, which distinct model values never share). -/
def jsStrictEqPrim : Json → Json → Bool
  | .str a, .str b => a = b
  | .num a, .num b => a = b
  | .bool a, .bool b => a = b
  | .null, .null => true
  | _, _ => false

/-- `openApiSpec.tags.find(t => t.name === tag)` as a Boolean test. -/
def tagNameMatches (t : Json) (tag : Json) : Bool :=
  match t with
  | .obj fs =>
      match alistGet fs "name" with
      | some n => jsStrictEqPrim n tag
      | none => false
  | _ => false

/-- Register the unseen tag names of a custom entry's `tags` array. -/
def addNewTags (cur : List Json) (ts : List Json) : List Json :=
  match ts with
  | [] => cur
  | tag :: rest =>
      addNewTags (if cur.any (fun t => tagNameMatches t tag) then cur
                  else cur ++ [Json.obj [("name", tag)]]) rest

/-- `[...pathSpec.parameters, ...params]` written back to `parameters`. -/
def appendParams (pathSpec : List (String × Json)) (params : List Json) :
    List (String × Json) :=
  let cur := match alistGet pathSpec "parameters" with
    | some (.arr xs) => xs
    | _ => []
  alistSet pathSpec "parameters" (.arr (cur ++ params))

/-- `addOpenApiPath`: build a custom entry from hand-authored metadata,
fold in schemas derived from the validation spec, register new tags, and
store the entry flagged `customSpec`. -/
def addOpenApiPath (path method : String) (openapi : List (String × Json))
    (validate : Option ValidateSpec) (spec : OpenSpecDoc) : OpenSpecDoc :=
  let pathSpec := alistSet openapi "parameters" (jsOrElse (alistGet openapi "parameters") (.arr []))
  let pathSpec := alistSet pathSpec "customSpec" (.bool true)
  let pathSpec := match validate with
    | none => pathSpec
    | some v =>
        let pathSpec := match v.body with
          | some b => alistSet pathSpec "requestBody"
              (.obj [("required", .bool true),
                     ("content", .obj [("application/json",
                       .obj [("schema", convertValidationToSchema b)])])])
          | none => pathSpec
        if v.params.isSome || v.query.isSome then
          let params :=
            (match v.params with
             | some p => convertParamsToOpenApi p "path"
             | none => [])
            ++ (match v.query with
                | some q => convertParamsToOpenApi q "query"
                | none => [])
          appendParams pathSpec params
        else pathSpec
  let newTags := match alistGet openapi "tags" with
    | some (.arr ts) => addNewTags spec.tags ts
    | _ => spec.tags
  { spec with
    tags := newTags,
    paths := pathsSet spec.paths path method (.obj pathSpec) }

/-- The per-verb context of `registerObjectRoute`'s `methods.forEach`. -/
structure VerbCtx where
  cfg : AppConfig
  routePath : String
  allMiddlewares : List Mw
  handler : HandlerFn
  routeName : String
  openapi : Option (List (String × Json))
  validate : Option ValidateSpec

/-- The `methods.forEach` loop of `registerObjectRoute`: register the verb
on the local router, push the route-stack entry, add the custom entry when
`openapi` metadata is present, regenerate the document, and abort at the
first unknown verb (leaving earlier iterations' effects in place). -/
def processVerbs (ctx : VerbCtx) (methods : List String)
    (localRouter : List MountedRoute) (s : RegState) :
    (List MountedRoute × RegState) × Except String Unit :=
  match methods with
  | [] => ((localRouter, s), .ok ())
  | m :: rest =>
      let methodLower := (jsToLower m)
      if isRouterMethod methodLower then
        let localRouter := localRouter ++
          [MountedRoute.mk ctx.routePath methodLower ctx.allMiddlewares ctx.handler]
        let s := { s with routeStack :=
          s.routeStack ++ [StackEntry.mk ctx.routePath methodLower ctx.routeName] }
        let s := match ctx.openapi with
          | some oa =>
              { s with spec := addOpenApiPath ctx.routePath methodLower oa ctx.validate s.spec }
          | none => s
        let s := { s with spec := autoGenerateOpenApiSpec ctx.cfg s.routeStack s.spec }
        processVerbs ctx rest localRouter s
      else ((localRouter, s), .error ("Invalid HTTP method: " ++ m))

/-- The `for (const dep of dependencies)` existence check of
`registerPlugin`. -/
def checkDeps (plugins : List (String × PluginVal)) : List String → Except String Unit
  | [] => .ok ()
  | dep :: rest =>
      if (alistGet plugins dep).isSome then checkDeps plugins rest
      else .error ("Plugin dependency not found: " ++ dep)

/-- The outcome of `await initialize(...)`: the exception it raised, if the
hook is a function and raised one (an absent or non-function `initialize`
is skipped). -/
def initHookFailure : Option (Except String Unit) → Option String
  | some (.error e) => some e
  | _ => none

/-- The tail of `registerPlugin`: after the plugin-routes loop, either
propagate its failure or store the plugin record (`plugins.set`). -/
def recordPlugin (name : String) (version : Option String) (deps : List String)
    (routeName : String) (res : RegState × Except String Unit) :
    RegState × Except String Unit :=
  match res with
  | (s2, .error e) => (s2, .error e)
  | (s2, .ok ()) =>
      let pv := PluginVal.mk name (version.getD "1.0.0") deps routeName
      ({ s2 with plugins := alistSet s2.plugins name pv }, .ok ())

mutual
/-- `registerObjectRoute`: validate the handler, build the middleware
chain, run plugin registration, process each verb, then record the route
and mount the local router. -/
def registerObjectRoute (cfg : AppConfig) (rc : RouteConfig) (filePath : String)
    (s : RegState) : RegState × Except String Unit :=
  match rc with
  | .mk rcPath rcMethod rcHandler rcMws rcValidate rcOpenapi rcPlugin =>
    let routePath := rcPath.getD "/"
    match rcHandler with
    | .fn h =>
        let routeName := extractRouteName filePath
        let allMiddlewares := getGlobalMiddlewares s ++ rcMws ++
          (match rcValidate with
           | some v => [createValidationMiddleware v]
           | none => [])
        let pluginStep : RegState × Except String Unit :=
          match rcPlugin with
          | some pc => registerPlugin cfg pc routeName s
          | none => (s, .ok ())
        match pluginStep with
        | (s1, .error e) => (s1, .error e)
        | (s1, .ok ()) =>
            let methods := normalizeMethods rcMethod
            let ctx : VerbCtx :=
              VerbCtx.mk cfg routePath allMiddlewares h routeName rcOpenapi rcValidate
            match processVerbs ctx methods [] s1 with
            | ((_, s2), .error e) => (s2, .error e)
            | ((localRouter, s2), .ok ()) =>
                let rv := RouteVal.mk filePath "object" (some rc)
                let s3 := { s2 with routes := alistSet s2.routes routeName rv }
                ({ s3 with routerEntries := s3.routerEntries ++ localRouter }, .ok ())
    | _ => (s, .error "Route handler must be a function")
termination_by sizeOf rc

/-- `registerPlugin`: name check, dependency existence checks, the
one-shot init hook, optional global middleware, transitively registered
plugin routes, then the registry record. -/
def registerPlugin (cfg : AppConfig) (pc : PluginConfig) (routeName : String)
    (s : RegState) : RegState × Except String Unit :=
  match pc with
  | .mk pcName pcVersion pcDeps pcInit pcMw pcRoutes =>
    if pcName = none ∨ pcName = some "" then (s, .error "Plugin must have a name")
    else
      let name := (pcName.getD "")
      match checkDeps s.plugins pcDeps with
      | .error e => (s, .error e)
      | .ok () =>
          match initHookFailure pcInit with
          | some e => (s, .error e)
          | none =>
              let s1 := match pcMw with
                | some mw => registerMiddleware s (name ++ "_middleware") mw
                | none => s
              recordPlugin name pcVersion pcDeps routeName
                (match pcRoutes with
                 | some rs => registerPluginRoutes cfg rs name s1
                 | none => (s1, .ok ()))
termination_by sizeOf pc

/-- The `for (const route of pluginRoutes)` loop of `registerPlugin`. -/
def registerPluginRoutes (cfg : AppConfig) (rs : List RouteConfig) (pluginName : String)
    (s : RegState) : RegState × Except String Unit :=
  match rs with
  | [] => (s, .ok ())
  | r :: rest =>
      match registerObjectRoute cfg r ("plugin:" ++ pluginName) s with
      | (s1, .error e) => (s1, .error e)
      | (s1, .ok ()) => registerPluginRoutes cfg rest pluginName s1
termination_by sizeOf rs
end

/-- The observable behaviour of a function-style route module: the routes
it registered on its fresh sub-router, as introspected afterwards. -/
structure FnDecl where
  regs : List MountedRoute

/-- `registerFunctionRoute`: record the module, mount the sub-router, push
the introspected path+verb pairs, and regenerate the document. -/
def registerFunctionRoute (cfg : AppConfig) (fd : FnDecl) (filePath : String)
    (s : RegState) : RegState :=
  let routeName := extractRouteName filePath
  let rv := RouteVal.mk filePath "function" none
  let s := { s with routes := alistSet s.routes routeName rv }
  let s := { s with routerEntries := s.routerEntries ++ fd.regs }
  let stackAdds := fd.regs.map (fun r => StackEntry.mk r.path r.method routeName)
  let s := { s with routeStack := s.routeStack ++ stackAdds }
  { s with spec := autoGenerateOpenApiSpec cfg s.routeStack s.spec }

/-- The primary export of a discovered module. -/
inductive ModuleShape where
  | fnShape (fd : FnDecl)
  | objShape (rc : RouteConfig)
  | badShape (typeName : String)

/-- One candidate module: its file path and its export shape. -/
structure ModFile where
  path : String
  shape : ModuleShape

/-- `loadRouteFile`: dispatch on the export's shape; any other shape is a
load error. -/
def loadRouteFile (cfg : AppConfig) (f : ModFile) (s : RegState) :
    RegState × Except String Unit :=
  match f.shape with
  | .fnShape fd => (registerFunctionRoute cfg fd f.path s, .ok ())
  | .objShape rc => registerObjectRoute cfg rc f.path s
  | .badShape t => (s, .error ("Invalid route export type: " ++ t))

/-- The `Promise.allSettled` join of `loadRoutesFromDir`: every module load
runs to completion independently and its status is recorded. -/
def loadAllSettled (cfg : AppConfig) (files : List ModFile) (s : RegState) :
    RegState × List (String × Option String) :=
  match files with
  | [] => (s, [])
  | f :: rest =>
      let step := loadRouteFile cfg f s
      let restRun := loadAllSettled cfg rest step.1
      (restRun.1, (f.path, match step.2 with
        | .ok _ => none
        | .error e => some e) :: restRun.2)

/-- `loadRoutesFromDir` applied to the discovered candidate modules: load
all, log each failure and the summary line, and fail with the aggregated
count when any module failed (successful registrations are kept). -/
def loadRoutesFromDir (cfg : AppConfig) (files : List ModFile) (s : RegState) :
    RegState × Except String Unit :=
  let run := loadAllSettled cfg files s
  let results := run.2
  let successCount := (results.filter (fun r => r.2.isNone)).length
  let errorCount := (results.filter (fun r => r.2.isSome)).length
  let failLogs := results.filterMap (fun r =>
    match r.2 with
    | some e => some ("Failed to load route file " ++ r.1 ++ ": " ++ e)
    | none => none)
  let s1 := { run.1 with log := run.1.log ++ failLogs ++
    ["Route loading completed: " ++ toString successCount ++ " successful, "
      ++ toString errorCount ++ " failed"] }
  if errorCount > 0 then
    (s1, .error ("Failed to load " ++ toString errorCount ++ " route files"))
  else (s1, .ok ())

/-- `removeRoute`: delete the registry entry, filter the route stack, and
regenerate the document. -/
def removeRoute (cfg : AppConfig) (routeName : String) (s : RegState) :
    RegState × Except String Unit :=
  match alistGet s.routes routeName with
  | none => (s, .error ("Route not found: " ++ routeName))
  | some _ =>
      let s := { s with routes := alistDelete s.routes routeName }
      let s := { s with routeStack := s.routeStack.filter (fun r => r.routeName != routeName) }
      ({ s with spec := autoGenerateOpenApiSpec cfg s.routeStack s.spec }, .ok ())

/-- `getRoutesCount`: the size of the `routes` map. -/
def getRoutesCount (s : RegState) : Nat :=
  s.routes.length

/-- `getRouteInfo`. -/
def getRouteInfo (s : RegState) (routeName : String) : Option RouteVal :=
  alistGet s.routes routeName

/-- The document as initialized at module load (empty `paths`, empty
`tags`, empty schema table). -/
def initSpecDoc : OpenSpecDoc :=
  { paths := [], tags := [], schemas := [] }

/-- The handler's state right after module initialization. -/
def initRegState : RegState :=
  { routerEntries := [], routes := [], middlewares := [], plugins := [],
    routeStack := [], spec := initSpecDoc, log := [] }

/-! Claim C5: path-parameter extraction. -/

/-- The `schema.type` string of a parameter object. -/
def paramSchemaType (p : Json) : Option String :=
  match p with
  | .obj fs =>
      match alistGet fs "schema" with
      | some (.obj sf) =>
          match alistGet sf "type" with
          | some (.str t) => some t
          | _ => none
      | _ => none
  | _ => none

/-- The `required` flag of a parameter object. -/
def paramRequired (p : Json) : Option Bool :=
  match p with
  | .obj fs =>
      match alistGet fs "required" with
      | some (.bool b) => some b
      | _ => none
  | _ => none

/-- The `name` string of a parameter object. -/
def paramName (p : Json) : Option String :=
  match p with
  | .obj fs =>
      match alistGet fs "name" with
      | some (.str n) => some n
      | _ => none
  | _ => none

/-- Claim C5, counterexample: the claim says a token name containing "id"
case-insensitively (such as "userID") gets schema type `integer`; the code
only tests the literal substrings "id" and "Id", so `{userID}` yields type
`string`. -/
theorem C5_counterexample_userID_is_string :
    (extractParameters "/u/\x7buserID\x7d").map paramSchemaType = [some "string"] ∧
    (extractParameters "/u/\x7buserID\x7d").map paramSchemaType ≠ [some "integer"] := by
  constructor
  · rfl
  · decide

/-- Claim C5 (amended): every `{name}` token yields exactly one path
parameter marked required, whose schema type is `integer` exactly when the
token name contains the literal substring "id" or "Id" (case-sensitive on
those two spellings), and `string` otherwise; on
`/users/{id}/posts/{postId}` this produces two required parameters both
typed `integer`. -/
theorem C5_param_extraction (path : String) :
    (extractParameters path).length = (extractBraceTokens path.toList).length ∧
    (∀ p ∈ extractParameters path, ∃ n,
      p = paramJson n ∧
      paramName p = some n ∧
      paramRequired p = some true ∧
      paramSchemaType p =
        some (if strIncludes n "id" || strIncludes n "Id" then "integer" else "string")) ∧
    extractParameters "/users/\x7bid\x7d/posts/\x7bpostId\x7d" =
      [paramJson "id", paramJson "postId"] ∧
    (extractParameters "/users/\x7bid\x7d/posts/\x7bpostId\x7d").map paramSchemaType =
      [some "integer", some "integer"] := by
  refine ⟨by simp [extractParameters], ?_, rfl, rfl⟩
  intro p hp
  rw [extractParameters, List.mem_map] at hp
  obtain ⟨n, hn, rfl⟩ := hp
  refine ⟨n, rfl, ?_, ?_, ?_⟩
  · simp [paramName, paramJson, alistGet]
  · simp [paramRequired, paramJson, alistGet]
  · simp [paramSchemaType, paramJson, alistGet]

/-- Claim C5, witness: the amended theorem applied to the spec's example
path, at the first extracted parameter. -/
theorem C5_param_extraction_witness :
    ∃ n, paramJson "id" = paramJson n ∧
      paramName (paramJson "id") = some n ∧
      paramRequired (paramJson "id") = some true ∧
      paramSchemaType (paramJson "id") =
        some (if strIncludes n "id" || strIncludes n "Id" then "integer" else "string") :=
  (C5_param_extraction "/users/\x7bid\x7d/posts/\x7bpostId\x7d").2.1 (paramJson "id")
    (by rw [show extractParameters "/users/\x7bid\x7d/posts/\x7bpostId\x7d" =
          [paramJson "id", paramJson "postId"] from rfl]
        exact List.mem_cons_self _ _)

/-! Claims C7 and C10: the synthesized validation middleware. -/

/-- A chain ending in a middleware lets the terminal handler run only if
that middleware called `next()`. -/
theorem runChain_none_last_next (pre : List Mw) (mw : Mw) (req : Req) :
    runChain (pre ++ [mw]) req = none → mw req = .next := by
  induction pre with
  | nil =>
      intro h
      simp only [List.nil_append, runChain] at h
      cases hmw : mw req with
      | next => rfl
      | respond st b => rw [hmw] at h; simp at h
  | cons m rest ih =>
      intro h
      simp only [List.cons_append, runChain] at h
      cases hm : m req with
      | next => rw [hm] at h; exact ih h
      | respond st b => rw [hm] at h; simp at h

/-- Claim C7: when a schema reports violations the synthesized middleware
responds 400 with the per-field details and the terminal handler is never
reached; when no violations are collected it passes control on unchanged. -/
theorem C7_validation_failure_handling (validate : ValidateSpec) (req : Req) :
    (collectErrors validate req ≠ [] →
      createValidationMiddleware validate req =
        .respond 400 (validationErrorBody (collectErrors validate req)) ∧
      ∀ pre : List Mw, runChain (pre ++ [createValidationMiddleware validate]) req ≠ none) ∧
    (collectErrors validate req = [] →
      createValidationMiddleware validate req = .next) := by
  constructor
  · intro hne
    have hlen : 0 < (collectErrors validate req).length := List.length_pos.mpr hne
    have hmw : createValidationMiddleware validate req =
        .respond 400 (validationErrorBody (collectErrors validate req)) := by
      simp only [createValidationMiddleware]
      rw [if_pos hlen]
    refine ⟨hmw, ?_⟩
    intro pre hnone
    have := runChain_none_last_next pre _ req hnone
    rw [hmw] at this
    exact MWResult.noConfusion this
  · intro hemp
    simp only [createValidationMiddleware, hemp]
    rfl

/-- A schema that rejects every body it sees, reporting one violation. -/
def rejectAllSchema : ValSchema :=
  { validateFn := some (fun _ => { error := some { details := [⟨["name"], "is required"⟩] } }),
    typeTag := none, idsByKey := none }

/-- A validation spec with only a body schema. -/
def bodyOnlySpec : ValidateSpec :=
  { body := some rejectAllSchema, params := none, query := none }

/-- A request carrying a (truthy) body and nothing else. -/
def reqWithBody : Req :=
  { body := some (.obj [("x", .num 1)]), params := none, query := none }

/-- Claim C7, witness: a request whose body schema reports one violation is
answered 400 with that violation and never reaches the handler. -/
theorem C7_validation_failure_handling_witness :
    createValidationMiddleware bodyOnlySpec reqWithBody =
      .respond 400 (validationErrorBody (collectErrors bodyOnlySpec reqWithBody)) ∧
    runChain ([] ++ [createValidationMiddleware bodyOnlySpec]) reqWithBody ≠ none := by
  have h := (C7_validation_failure_handling bodyOnlySpec reqWithBody).1 (by decide)
  exact ⟨h.1, h.2 []⟩

/-- An absent or falsy request part contributes no violations, whatever its
schema is. -/
theorem partErrors_of_falsy (schema : Option ValSchema) (part : Option Json)
    (h : optTruthy part = false) : partErrors schema part = [] := by
  cases part with
  | none => cases schema <;> rfl
  | some j =>
      simp only [optTruthy] at h
      cases schema with
      | none => rfl
      | some s => simp [partErrors, h]

/-- A part without a declared schema contributes no violations. -/
theorem partErrors_none (part : Option Json) :
    partErrors (none : Option ValSchema) part = [] := by
  cases part <;> rfl

/-- Claim C10: the middleware validates only present parts — for an absent
(undefined or falsy) body, params, or query, the corresponding schema is
irrelevant to the outcome; on a fully empty request the middleware always
calls `next()` and the terminal handler executes. -/
theorem C10_absent_parts_skip_validation (validate : ValidateSpec) (req : Req) :
    (optTruthy req.body = false →
      createValidationMiddleware validate req =
        createValidationMiddleware { validate with body := none } req) ∧
    (optTruthy req.params = false →
      createValidationMiddleware validate req =
        createValidationMiddleware { validate with params := none } req) ∧
    (optTruthy req.query = false →
      createValidationMiddleware validate req =
        createValidationMiddleware { validate with query := none } req) ∧
    (optTruthy req.body = false → optTruthy req.params = false → optTruthy req.query = false →
      createValidationMiddleware validate req = .next ∧
      runChain [createValidationMiddleware validate] req = none) := by
  refine ⟨?_, ?_, ?_, ?_⟩
  · intro h
    have hc : collectErrors validate req = collectErrors { validate with body := none } req := by
      simp only [collectErrors, partErrors_of_falsy _ _ h, partErrors_none]
    simp only [createValidationMiddleware, hc]
  · intro h
    have hc : collectErrors validate req = collectErrors { validate with params := none } req := by
      simp only [collectErrors, partErrors_of_falsy _ _ h, partErrors_none]
    simp only [createValidationMiddleware, hc]
  · intro h
    have hc : collectErrors validate req = collectErrors { validate with query := none } req := by
      simp only [collectErrors, partErrors_of_falsy _ _ h, partErrors_none]
    simp only [createValidationMiddleware, hc]
  · intro hb hp hq
    have hempty : collectErrors validate req = [] := by
      simp [collectErrors, partErrors_of_falsy _ _ hb, partErrors_of_falsy _ _ hp,
        partErrors_of_falsy _ _ hq]
    have hn : createValidationMiddleware validate req = .next := by
      simp only [createValidationMiddleware, hempty]
      rfl
    refine ⟨hn, ?_⟩
    simp [runChain, hn]

/-- A request with every part absent. -/
def emptyReq : Req :=
  { body := none, params := none, query := none }

/-- Claim C10, witness: a request with no body passes a body schema that
rejects everything (including an empty object), and the handler executes. -/
theorem C10_absent_parts_skip_validation_witness :
    createValidationMiddleware bodyOnlySpec emptyReq = .next ∧
    runChain [createValidationMiddleware bodyOnlySpec] emptyReq = none :=
  (C10_absent_parts_skip_validation bodyOnlySpec emptyReq).2.2.2 rfl rfl rfl

/-! Association-list lemmas for the document's object semantics. -/

/-- The key sequence of a JavaScript object. -/
def keysOf {α : Type} (l : List (String × α)) : List String :=
  l.map Prod.fst

theorem alistGet_set {α : Type} (l : List (String × α)) (k k' : String) (v : α) :
    alistGet (alistSet l k v) k' = if k = k' then some v else alistGet l k' := by
  induction l with
  | nil => by_cases h : k = k' <;> simp [alistSet, alistGet, h]
  | cons kv rest ih =>
      obtain ⟨k1, v1⟩ := kv
      by_cases h1 : k1 = k
      · subst h1
        by_cases h2 : k1 = k' <;> simp [alistSet, alistGet, h2]
      · by_cases h2 : k1 = k'
        · subst h2
          have hne : ¬(k1 = k) := h1
          have hne' : ¬(k = k1) := fun hh => h1 hh.symm
          simp [alistSet, alistGet, hne, hne']
        · simp [alistSet, alistGet, h1, h2, ih]

theorem alistGet_eq_none_iff {α : Type} (l : List (String × α)) (k : String) :
    alistGet l k = none ↔ k ∉ keysOf l := by
  induction l with
  | nil => simp [alistGet, keysOf]
  | cons kv rest ih =>
      obtain ⟨k1, v1⟩ := kv
      by_cases h1 : k1 = k
      · subst h1
        simp [alistGet, keysOf]
      · have h1' : ¬(k = k1) := fun hh => h1 hh.symm
        simp only [alistGet, h1, if_false, keysOf, List.map_cons, List.mem_cons, not_or]
        constructor
        · intro h
          exact ⟨h1', by simpa [keysOf] using ih.mp h⟩
        · intro h
          exact ih.mpr (by simpa [keysOf] using h.2)

theorem alistGet_mem_pair {α : Type} (l : List (String × α)) (k : String) (v : α)
    (h : alistGet l k = some v) : (k, v) ∈ l := by
  induction l with
  | nil => simp [alistGet] at h
  | cons kv rest ih =>
      obtain ⟨k1, v1⟩ := kv
      by_cases h1 : k1 = k
      · subst h1
        simp [alistGet] at h
        simp [h]
      · simp [alistGet, h1] at h
        exact List.mem_cons_of_mem _ (ih h)

theorem alistSet_fresh {α : Type} (l : List (String × α)) (k : String) (v : α)
    (h : k ∉ keysOf l) : alistSet l k v = l ++ [(k, v)] := by
  induction l with
  | nil => rfl
  | cons kv rest ih =>
      obtain ⟨k1, v1⟩ := kv
      simp [keysOf] at h
      have h1 : ¬(k1 = k) := fun hh => h.1 hh.symm
      simp [alistSet, h1]
      exact ih (by simp [keysOf, h.2])

theorem alistGet_append_right {α : Type} (A B : List (String × α)) (k : String)
    (h : k ∉ keysOf A) : alistGet (A ++ B) k = alistGet B k := by
  induction A with
  | nil => rfl
  | cons kv rest ih =>
      obtain ⟨k1, v1⟩ := kv
      simp [keysOf] at h
      have h1 : ¬(k1 = k) := fun hh => h.1 hh.symm
      simp [alistGet, h1]
      exact ih (by simp [keysOf, h.2])

theorem alistSet_append_right {α : Type} (A B : List (String × α)) (k : String) (v : α)
    (h : k ∉ keysOf A) : alistSet (A ++ B) k v = A ++ alistSet B k v := by
  induction A with
  | nil => rfl
  | cons kv rest ih =>
      obtain ⟨k1, v1⟩ := kv
      simp [keysOf] at h
      have h1 : ¬(k1 = k) := fun hh => h.1 hh.symm
      simp [alistSet, h1]
      exact ih (by simp [keysOf, h.2])

theorem alistSet_alistSet {α : Type} (l : List (String × α)) (k : String) (v v' : α) :
    alistSet (alistSet l k v) k v' = alistSet l k v' := by
  induction l with
  | nil => simp [alistSet]
  | cons kv rest ih =>
      obtain ⟨k1, v1⟩ := kv
      by_cases h1 : k1 = k
      · subst h1; simp [alistSet]
      · simp [alistSet, h1, ih]

theorem alistSet_keys {α : Type} (l : List (String × α)) (k : String) (v : α) :
    keysOf (alistSet l k v) = if k ∈ keysOf l then keysOf l else keysOf l ++ [k] := by
  induction l with
  | nil => simp [alistSet, keysOf]
  | cons kv rest ih =>
      obtain ⟨k1, v1⟩ := kv
      by_cases h1 : k1 = k
      · subst h1
        simp [alistSet, keysOf]
      · have h1' : ¬(k = k1) := fun hh => h1 hh.symm
        simp only [alistSet, h1, if_false, keysOf, List.map_cons] at ih ⊢
        rw [ih]
        by_cases h2 : k ∈ List.map Prod.fst rest
        · simp [h2, h1']
        · simp [h2, h1']

theorem mem_alistSet {α : Type} (l : List (String × α)) (k : String) (v : α)
    (x : String × α) (h : x ∈ alistSet l k v) : x = (k, v) ∨ x ∈ l := by
  induction l with
  | nil => simp [alistSet] at h; simp [h]
  | cons kv rest ih =>
      obtain ⟨k1, v1⟩ := kv
      by_cases h1 : k1 = k
      · subst h1
        simp [alistSet] at h
        rcases h with h | h
        · exact Or.inl h
        · exact Or.inr (List.mem_cons_of_mem _ h)
      · simp [alistSet, h1] at h
        rcases h with h | h
        · exact Or.inr (by simp [h])
        · rcases ih h with h' | h'
          · exact Or.inl h'
          · exact Or.inr (List.mem_cons_of_mem _ h')

theorem alistSet_ne_nil {α : Type} (l : List (String × α)) (k : String) (v : α) :
    alistSet l k v ≠ [] := by
  cases l with
  | nil => simp [alistSet]
  | cons kv rest =>
      obtain ⟨k1, v1⟩ := kv
      by_cases h1 : k1 = k <;> simp [alistSet, h1]

theorem nodup_keys_alistSet {α : Type} (l : List (String × α)) (k : String) (v : α)
    (h : (keysOf l).Nodup) : (keysOf (alistSet l k v)).Nodup := by
  rw [alistSet_keys]
  by_cases hm : k ∈ keysOf l
  · simpa [hm] using h
  · simp only [hm, if_false]
    simp [List.nodup_append, h, hm]

/-! Lookup lemmas about the two passes of `autoGenerateOpenApiSpec`. -/

theorem pathsLookup_eq_bind (ps : Paths) (p m : String) :
    pathsLookup ps p m = (alistGet ps p).bind (fun g => alistGet g m) := by
  cases h : alistGet ps p <;> simp [pathsLookup, h]

theorem alistGet_append_left {α : Type} (A B : List (String × α)) (k : String) (v : α)
    (h : alistGet A k = some v) : alistGet (A ++ B) k = some v := by
  induction A with
  | nil => simp [alistGet] at h
  | cons kv rest ih =>
      obtain ⟨k1, v1⟩ := kv
      by_cases h1 : k1 = k
      · simp [alistGet, h1] at h ⊢
        exact h
      · simp [alistGet, h1] at h ⊢
        exact ih h

theorem pathsLookup_set (ps : Paths) (p m : String) (e : Json) (p' m' : String) :
    pathsLookup (pathsSet ps p m e) p' m' =
      if p = p' ∧ m = m' then some e else pathsLookup ps p' m' := by
  rw [pathsLookup_eq_bind, pathsLookup_eq_bind, pathsSet, alistGet_set]
  by_cases hp : p = p'
  · subst hp
    rw [if_pos rfl, Option.some_bind]
    rw [alistGet_set]
    by_cases hm : m = m'
    · simp [hm]
    · simp only [hm, if_false, and_false]
      cases hg : alistGet ps p <;> simp [hg, alistGet]
  · have hcond : ¬(p = p' ∧ m = m') := fun h => hp h.1
    rw [if_neg hp, if_neg hcond]

theorem entryIsCustom_truthy (e : Json) (h : entryIsCustom e = true) : jsTruthy e = true := by
  cases e <;> first | rfl | simp [entryIsCustom] at h

theorem entryIsCustom_eq_false_of_falsy (e : Json) (h : jsTruthy e = false) :
    entryIsCustom e = false := by
  cases hc : entryIsCustom e
  · rfl
  · rw [entryIsCustom_truthy e hc] at h
    exact absurd h (by simp)

theorem autoEntry_truthy (cfg : AppConfig) (p m : String) :
    jsTruthy (autoEntry cfg p m) = true := rfl

theorem autoEntry_not_custom (cfg : AppConfig) (p m : String) :
    entryIsCustom (autoEntry cfg p m) = false := by
  simp only [autoEntry, entryIsCustom]
  split_ifs <;> rfl

/-- `addStackStep` on a path key not yet in the document. -/
theorem addStackStep_of_none (cfg : AppConfig) (Q : Paths) (r : StackEntry)
    (hq : alistGet Q r.path = none) :
    addStackStep cfg Q r = Q ++ [(r.path, [(r.method, autoEntry cfg r.path r.method)])] := by
  have hfresh : r.path ∉ keysOf Q := (alistGet_eq_none_iff Q r.path).mp hq
  simp only [addStackStep, hq]
  rw [alistGet_set, if_pos rfl]
  simp only [Option.getD_some, alistGet, optTruthy, Bool.false_eq_true, if_false]
  rw [alistSet_alistSet, alistSet_fresh Q r.path _ hfresh]
  rfl

/-- `addStackStep` when the entry already exists and is truthy. -/
theorem addStackStep_of_truthy (cfg : AppConfig) (Q : Paths) (r : StackEntry) (g : MethodMap)
    (hq : alistGet Q r.path = some g) (ht : optTruthy (alistGet g r.method) = true) :
    addStackStep cfg Q r = Q := by
  simp only [addStackStep, hq, Option.getD_some, ht, if_true]

/-- `addStackStep` when the path exists but the entry is absent or falsy. -/
theorem addStackStep_of_falsy (cfg : AppConfig) (Q : Paths) (r : StackEntry) (g : MethodMap)
    (hq : alistGet Q r.path = some g) (ht : optTruthy (alistGet g r.method) = false) :
    addStackStep cfg Q r =
      alistSet Q r.path (alistSet g r.method (autoEntry cfg r.path r.method)) := by
  simp only [addStackStep, hq, Option.getD_some, ht, Bool.false_eq_true, if_false]

/-- Characterization of one stack-route iteration at an arbitrary lookup
point: either the iteration's own (previously absent-or-falsy) entry, or
the document is unchanged at that point. -/
theorem addStackStep_lookup (cfg : AppConfig) (Q : Paths) (r : StackEntry) (p m : String) :
    pathsLookup (addStackStep cfg Q r) p m =
      if optTruthy (pathsLookup Q r.path r.method) = false ∧ r.path = p ∧ r.method = m
      then some (autoEntry cfg r.path r.method)
      else pathsLookup Q p m := by
  cases hq : alistGet Q r.path with
  | none =>
      rw [addStackStep_of_none cfg Q r hq]
      have hfresh : r.path ∉ keysOf Q := (alistGet_eq_none_iff Q r.path).mp hq
      have hbase : pathsLookup Q r.path r.method = none := by simp [pathsLookup, hq]
      by_cases hp : r.path = p
      · subst hp
        simp only [hbase, optTruthy, true_and]
        rw [pathsLookup, alistGet_append_right Q _ _ hfresh]
        simp only [alistGet, if_pos rfl]
        by_cases hm : r.method = m
        · simp [hm, alistGet, pathsLookup, hq]
        · simp [hm, alistGet, pathsLookup, hq]
      · have hcond : ¬(optTruthy (pathsLookup Q r.path r.method) = false ∧ r.path = p ∧
            r.method = m) := fun h => hp h.2.1
        rw [if_neg hcond, pathsLookup]
        cases hgp : alistGet Q p with
        | none =>
            rw [alistGet_append_right]
            · simp [alistGet, hp, pathsLookup, hgp]
            · intro hmem
              rcases (List.mem_map.mp hmem) with ⟨pair, hpair, hfst⟩
              have : alistGet Q p ≠ none := by
                intro hn
                exact ((alistGet_eq_none_iff Q p).mp hn) (by
                  simpa [keysOf, hfst] using List.mem_map_of_mem Prod.fst hpair)
              exact this hgp
        | some gp =>
            rw [alistGet_append_left Q _ p gp hgp]
            simp [pathsLookup, hgp]
  | some g =>
      cases ht : optTruthy (alistGet g r.method) with
      | true =>
          rw [addStackStep_of_truthy cfg Q r g hq ht]
          have : optTruthy (pathsLookup Q r.path r.method) = true := by
            simp [pathsLookup, hq, ht]
          simp [this]
      | false =>
          rw [addStackStep_of_falsy cfg Q r g hq ht]
          have hlow : optTruthy (pathsLookup Q r.path r.method) = false := by
            simp [pathsLookup, hq, ht]
          have hset : alistSet Q r.path (alistSet g r.method (autoEntry cfg r.path r.method))
              = pathsSet Q r.path r.method (autoEntry cfg r.path r.method) := by
            simp [pathsSet, hq]
          rw [hset, pathsLookup_set, hlow]
          simp

/-- The route-stack pass never modifies an existing truthy entry. -/
theorem addStackRoutes_preserves (cfg : AppConfig) (stack : List StackEntry) :
    ∀ (Q : Paths) (p m : String) (e : Json), pathsLookup Q p m = some e → jsTruthy e = true →
      pathsLookup (addStackRoutes cfg Q stack) p m = some e := by
  induction stack with
  | nil => intro Q p m e h ht; exact h
  | cons r rest ih =>
      intro Q p m e h ht
      simp only [addStackRoutes]
      apply ih
      · rw [addStackStep_lookup]
        have hcond : ¬(optTruthy (pathsLookup Q r.path r.method) = false ∧ r.path = p ∧
            r.method = m) := by
          rintro ⟨hf, hp, hm⟩
          rw [hp, hm, h] at hf
          simp [optTruthy, ht] at hf
        rw [if_neg hcond]
        exact h
      · exact ht

/-- Every entry of the route-stack pass's output either was already in the
document or belongs to a route of the stack. -/
theorem addStackRoutes_origin (cfg : AppConfig) (stack : List StackEntry) :
    ∀ (Q : Paths) (p m : String) (e : Json),
      pathsLookup (addStackRoutes cfg Q stack) p m = some e →
      pathsLookup Q p m = some e ∨ ∃ r ∈ stack, r.path = p ∧ r.method = m := by
  induction stack with
  | nil => intro Q p m e h; exact Or.inl h
  | cons r rest ih =>
      intro Q p m e h
      simp only [addStackRoutes] at h
      rcases ih _ p m e h with h1 | h1
      · rw [addStackStep_lookup] at h1
        by_cases hcond : optTruthy (pathsLookup Q r.path r.method) = false ∧ r.path = p ∧
            r.method = m
        · exact Or.inr ⟨r, List.mem_cons_self r rest, hcond.2⟩
        · rw [if_neg hcond] at h1
          exact Or.inl h1
      · obtain ⟨r', hr', hpm⟩ := h1
        exact Or.inr ⟨r', List.mem_cons_of_mem r hr', hpm⟩

/-- After the route-stack pass, every stack route has a truthy entry. -/
theorem addStackRoutes_member_truthy (cfg : AppConfig) (stack : List StackEntry) :
    ∀ (Q : Paths) (r : StackEntry), r ∈ stack →
      optTruthy (pathsLookup (addStackRoutes cfg Q stack) r.path r.method) = true := by
  induction stack with
  | nil => intro Q r h; simp at h
  | cons r0 rest ih =>
      intro Q r h
      rcases List.mem_cons.mp h with h | h
      · subst h
        simp only [addStackRoutes]
        have hstep : optTruthy (pathsLookup (addStackStep cfg Q r) r.path r.method) = true := by
          rw [addStackStep_lookup]
          by_cases hcond : optTruthy (pathsLookup Q r.path r.method) = false
          · rw [if_pos ⟨hcond, rfl, rfl⟩]
            simp [optTruthy, autoEntry_truthy]
          · rw [if_neg (fun hh => hcond hh.1)]
            simpa using hcond
        cases hv : pathsLookup (addStackStep cfg Q r) r.path r.method with
        | none => rw [hv] at hstep; simp [optTruthy] at hstep
        | some e =>
            rw [hv] at hstep
            rw [addStackRoutes_preserves cfg rest _ _ _ e hv (by simpa [optTruthy] using hstep)]
            simpa [optTruthy] using hstep
      · exact ih _ r h

/-- The re-add pass leaves path keys it never visits untouched. -/
theorem readdMethods_lookup_other (pathKey : String) (methods : MethodMap) :
    ∀ (acc : Paths) (p m : String), p ≠ pathKey →
      pathsLookup (readdMethods pathKey methods acc) p m = pathsLookup acc p m := by
  induction methods with
  | nil => intro acc p m hp; rfl
  | cons me rest ih =>
      obtain ⟨m1, e1⟩ := me
      intro acc p m hp
      simp only [readdMethods]
      rw [ih _ p m hp]
      by_cases hc : entryIsCustom e1 = true
      · rw [if_pos hc, pathsLookup_set]
        rw [if_neg (fun hh => hp hh.1.symm)]
      · rw [if_neg hc]

theorem readdCustomPaths_lookup_not_mem (B : Paths) :
    ∀ (acc : Paths) (p m : String), p ∉ keysOf B →
      pathsLookup (readdCustomPaths B acc) p m = pathsLookup acc p m := by
  induction B with
  | nil => intro acc p m hp; rfl
  | cons g rest ih =>
      obtain ⟨q, ms⟩ := g
      intro acc p m hp
      simp only [keysOf, List.map_cons, List.mem_cons, not_or] at hp
      simp only [readdCustomPaths]
      rw [ih _ p m (by simpa [keysOf] using hp.2)]
      exact readdMethods_lookup_other q ms acc p m hp.1

/-- The re-add pass leaves verbs it never visits untouched. -/
theorem readdMethods_lookup_other_method (pathKey : String) (methods : MethodMap) :
    ∀ (acc : Paths) (p m : String), m ∉ keysOf methods →
      pathsLookup (readdMethods pathKey methods acc) p m = pathsLookup acc p m := by
  induction methods with
  | nil => intro acc p m hm; rfl
  | cons me rest ih =>
      obtain ⟨m1, e1⟩ := me
      intro acc p m hm
      simp only [keysOf, List.map_cons, List.mem_cons, not_or] at hm
      simp only [readdMethods]
      rw [ih _ p m (by simpa [keysOf] using hm.2)]
      by_cases hc : entryIsCustom e1 = true
      · rw [if_pos hc, pathsLookup_set]
        rw [if_neg (fun hh => hm.1 hh.2.symm)]
      · rw [if_neg hc]

/-- The re-add pass re-adds every custom entry of a well-formed group. -/
theorem readdMethods_lookup_custom (pathKey : String) (methods : MethodMap) :
    ∀ (acc : Paths) (m : String) (e : Json), (keysOf methods).Nodup →
      alistGet methods m = some e → entryIsCustom e = true →
      pathsLookup (readdMethods pathKey methods acc) pathKey m = some e := by
  induction methods with
  | nil => intro acc m e hnd hm hc; simp [alistGet] at hm
  | cons me rest ih =>
      obtain ⟨m1, e1⟩ := me
      intro acc m e hnd hm hc
      simp only [keysOf, List.map_cons, List.nodup_cons] at hnd
      by_cases h1 : m1 = m
      · subst h1
        have hm' : e1 = e := by simpa [alistGet] using hm
        subst hm'
        simp only [readdMethods, hc, if_pos]
        rw [readdMethods_lookup_other_method pathKey rest _ pathKey m1
          (by simpa [keysOf] using hnd.1)]
        rw [pathsLookup_set, if_pos ⟨rfl, rfl⟩]
      · simp only [alistGet, h1, if_false] at hm
        simp only [readdMethods]
        exact ih _ m e (by simpa [keysOf] using hnd.2) hm hc

/-- A document's well-formedness: no duplicate path keys and no duplicate
verb keys inside any path (JavaScript objects cannot have duplicates). -/
def PathsWF (ps : Paths) : Prop :=
  (keysOf ps).Nodup ∧ ∀ g ∈ ps, (keysOf g.2).Nodup

instance : DecidablePred PathsWF := fun ps =>
  inferInstanceAs (Decidable (And _ _))

/-- The re-add pass preserves every custom entry of a well-formed document. -/
theorem readdCustomPaths_lookup_custom (ps : Paths) :
    ∀ (acc : Paths) (p m : String) (e : Json), PathsWF ps →
      pathsLookup ps p m = some e → entryIsCustom e = true →
      pathsLookup (readdCustomPaths ps acc) p m = some e := by
  induction ps with
  | nil => intro acc p m e hwf hm hc; simp [pathsLookup, alistGet] at hm
  | cons g rest ih =>
      obtain ⟨q, ms⟩ := g
      intro acc p m e hwf hm hc
      obtain ⟨hout, hin⟩ := hwf
      simp only [keysOf, List.map_cons, List.nodup_cons] at hout
      by_cases hq : q = p
      · subst hq
        have hms : alistGet ms m = some e := by
          simpa [pathsLookup, alistGet] using hm
        simp only [readdCustomPaths]
        rw [readdCustomPaths_lookup_not_mem rest _ q m (by simpa [keysOf] using hout.1)]
        exact readdMethods_lookup_custom q ms acc m e
          (hin (q, ms) (List.mem_cons_self _ _)) hms hc
      · have hm' : pathsLookup rest p m = some e := by
          simpa [pathsLookup, alistGet, hq] using hm
        simp only [readdCustomPaths]
        exact ih _ p m e
          ⟨by simpa [keysOf] using hout.2, fun g hg => hin g (List.mem_cons_of_mem _ hg)⟩
          hm' hc

/-- Every entry of the re-add pass came from the accumulator or is custom. -/
theorem readdMethods_origin (pathKey : String) (methods : MethodMap) :
    ∀ (acc : Paths) (p m : String) (e : Json),
      pathsLookup (readdMethods pathKey methods acc) p m = some e →
      pathsLookup acc p m = some e ∨ entryIsCustom e = true := by
  induction methods with
  | nil => intro acc p m e h; exact Or.inl h
  | cons me rest ih =>
      obtain ⟨m1, e1⟩ := me
      intro acc p m e h
      simp only [readdMethods] at h
      rcases ih _ p m e h with h1 | h1
      · by_cases hc : entryIsCustom e1 = true
        · rw [if_pos hc, pathsLookup_set] at h1
          by_cases hcond : pathKey = p ∧ m1 = m
          · rw [if_pos hcond] at h1
            cases h1
            exact Or.inr hc
          · rw [if_neg hcond] at h1
            exact Or.inl h1
        · rw [if_neg hc] at h1
          exact Or.inl h1
      · exact Or.inr h1

theorem readdCustomPaths_origin (B : Paths) :
    ∀ (acc : Paths) (p m : String) (e : Json),
      pathsLookup (readdCustomPaths B acc) p m = some e →
      pathsLookup acc p m = some e ∨ entryIsCustom e = true := by
  induction B with
  | nil => intro acc p m e h; exact Or.inl h
  | cons g rest ih =>
      obtain ⟨q, ms⟩ := g
      intro acc p m e h
      simp only [readdCustomPaths] at h
      rcases ih _ p m e h with h1 | h1
      · exact readdMethods_origin q ms acc p m e h1
      · exact Or.inr h1

/-- Claim C1: on a well-formed document, every regeneration call preserves
every custom path+verb entry unchanged, and every non-custom entry of the
regenerated document belongs to a currently registered route of the route
stack (no stale auto entry survives). -/
theorem C1_regeneration_invariant (cfg : AppConfig) (spec : OpenSpecDoc)
    (stack : List StackEntry) (hwf : PathsWF spec.paths) :
    (∀ p m e, pathsLookup spec.paths p m = some e → entryIsCustom e = true →
      pathsLookup (autoGenerateOpenApiSpec cfg stack spec).paths p m = some e) ∧
    (∀ p m e, pathsLookup (autoGenerateOpenApiSpec cfg stack spec).paths p m = some e →
      entryIsCustom e = false → ∃ r ∈ stack, r.path = p ∧ r.method = m) := by
  constructor
  · intro p m e hm hc
    have h1 := readdCustomPaths_lookup_custom spec.paths [] p m e hwf hm hc
    exact addStackRoutes_preserves cfg stack _ p m e h1 (entryIsCustom_truthy e hc)
  · intro p m e hm hc
    rcases addStackRoutes_origin cfg stack _ p m e hm with h | h
    · rcases readdCustomPaths_origin spec.paths [] p m e h with h2 | h2
      · simp [pathsLookup, alistGet] at h2
      · rw [h2] at hc
        exact absurd hc (by simp)
    · exact h

/-- A hand-authored document entry (flagged `customSpec`). -/
def customEntry0 : Json :=
  .obj [("summary", .str "hand written"), ("customSpec", .bool true)]

/-- A document holding one custom entry at `GET /pets`. -/
def specWithCustom : OpenSpecDoc :=
  { paths := [("/pets", [("get", customEntry0)])], tags := [], schemas := [] }

/-- A route stack registering `POST /pets`. -/
def stack0 : List StackEntry :=
  [StackEntry.mk "/pets" "post" "pets"]

/-- Claim C1, witness: regenerating over a concrete document with one
custom entry and one registered route keeps the custom entry unchanged. -/
theorem C1_regeneration_invariant_witness :
    pathsLookup (autoGenerateOpenApiSpec (AppConfig.mk none) stack0 specWithCustom).paths
      "/pets" "get" = some customEntry0 :=
  (C1_regeneration_invariant (AppConfig.mk none) specWithCustom stack0
    (by constructor <;> decide)).1 "/pets" "get" customEntry0 rfl rfl

/-- Every group of the document is non-empty and holds only custom entries
(true of the re-add pass's output). -/
def PathsAllCustom (ps : Paths) : Prop :=
  ∀ g ∈ ps, g.2 ≠ [] ∧ ∀ me ∈ g.2, entryIsCustom me.2 = true

theorem pathsSet_wf (ps : Paths) (p m : String) (e : Json) (h : PathsWF ps) :
    PathsWF (pathsSet ps p m e) := by
  obtain ⟨hout, hin⟩ := h
  refine ⟨nodup_keys_alistSet _ _ _ hout, ?_⟩
  intro g hg
  rcases mem_alistSet _ _ _ _ hg with h1 | h1
  · subst h1
    show (keysOf (alistSet ((alistGet ps p).getD []) m e)).Nodup
    apply nodup_keys_alistSet
    cases hget : alistGet ps p with
    | some gg => simpa [hget] using hin (p, gg) (alistGet_mem_pair _ _ _ hget)
    | none => simp [hget, keysOf]
  · exact hin g h1

theorem pathsSet_allcustom (ps : Paths) (p m : String) (e : Json)
    (hc : entryIsCustom e = true) (h : PathsAllCustom ps) :
    PathsAllCustom (pathsSet ps p m e) := by
  intro g hg
  rcases mem_alistSet _ _ _ _ hg with h1 | h1
  · subst h1
    refine ⟨alistSet_ne_nil _ _ _, ?_⟩
    intro me hme
    rcases mem_alistSet _ _ _ _ hme with h2 | h2
    · rw [h2]; exact hc
    · cases hget : alistGet ps p with
      | some gg =>
          rw [hget] at h2
          exact (h (p, gg) (alistGet_mem_pair _ _ _ hget)).2 me h2
      | none =>
          rw [hget] at h2
          simp at h2
  · exact h g h1

theorem readdMethods_wf_allcustom (pathKey : String) (methods : MethodMap) :
    ∀ acc : Paths, PathsWF acc ∧ PathsAllCustom acc →
      PathsWF (readdMethods pathKey methods acc) ∧
      PathsAllCustom (readdMethods pathKey methods acc) := by
  induction methods with
  | nil => intro acc h; exact h
  | cons me rest ih =>
      obtain ⟨m1, e1⟩ := me
      intro acc h
      simp only [readdMethods]
      apply ih
      by_cases hc : entryIsCustom e1 = true
      · rw [if_pos hc]
        exact ⟨pathsSet_wf _ _ _ _ h.1, pathsSet_allcustom _ _ _ _ hc h.2⟩
      · rw [if_neg hc]
        exact h

theorem readdCustomPaths_wf_allcustom (B : Paths) :
    ∀ acc : Paths, PathsWF acc ∧ PathsAllCustom acc →
      PathsWF (readdCustomPaths B acc) ∧ PathsAllCustom (readdCustomPaths B acc) := by
  induction B with
  | nil => intro acc h; exact h
  | cons g rest ih =>
      obtain ⟨q, ms⟩ := g
      intro acc h
      exact ih _ (readdMethods_wf_allcustom q ms acc h)

theorem readdCustomPaths_append (A B : Paths) :
    ∀ acc, readdCustomPaths (A ++ B) acc = readdCustomPaths B (readdCustomPaths A acc) := by
  induction A with
  | nil => intro acc; rfl
  | cons g rest ih =>
      obtain ⟨q, ms⟩ := g
      intro acc
      simp only [List.cons_append, readdCustomPaths]
      exact ih _

/-- Re-adding an all-custom group onto an accumulator that does not hold its
path key appends the group's entries in order. -/
theorem readdMethods_build (pk : String) :
    ∀ (ms done : MethodMap) (acc : Paths),
      pk ∉ keysOf acc → (keysOf (done ++ ms)).Nodup →
      (∀ me ∈ ms, entryIsCustom me.2 = true) →
      readdMethods pk ms (acc ++ [(pk, done)]) = acc ++ [(pk, done ++ ms)] := by
  intro ms
  induction ms with
  | nil => intro done acc hacc hnd hcust; simp [readdMethods]
  | cons me rest ih =>
      obtain ⟨m, e⟩ := me
      intro done acc hacc hnd hcust
      have hce : entryIsCustom e = true := hcust (m, e) (List.mem_cons_self _ _)
      simp only [readdMethods, hce, if_pos]
      have hgetacc : alistGet (acc ++ [(pk, done)]) pk = some done := by
        rw [alistGet_append_right _ _ _ hacc]
        simp [alistGet]
      have hmdone : m ∉ keysOf done := by
        simp only [keysOf, List.map_append, List.map_cons] at hnd
        intro hmem
        rcases List.nodup_append.mp hnd with ⟨_, _, hdisj⟩
        exact hdisj hmem (List.mem_cons_self _ _)
      have hset : pathsSet (acc ++ [(pk, done)]) pk m e = acc ++ [(pk, done ++ [(m, e)])] := by
        unfold pathsSet
        rw [hgetacc]
        simp only [Option.getD_some]
        rw [alistSet_fresh done m e hmdone]
        rw [alistSet_append_right _ _ _ _ hacc]
        simp [alistSet]
      rw [hset]
      have hnd' : (keysOf ((done ++ [(m, e)]) ++ rest)).Nodup := by
        simpa [keysOf, List.append_assoc] using hnd
      have := ih (done ++ [(m, e)]) acc hacc hnd'
        (fun x hx => hcust x (List.mem_cons_of_mem _ hx))
      simpa [List.append_assoc] using this

/-- The re-add pass is the identity on a well-formed all-custom document
disjoint from the accumulator. -/
theorem readdCustomPaths_fixpoint (Q : Paths) :
    ∀ acc : Paths, (∀ k ∈ keysOf Q, k ∉ keysOf acc) → PathsWF Q → PathsAllCustom Q →
      readdCustomPaths Q acc = acc ++ Q := by
  induction Q with
  | nil => intro acc _ _ _; simp [readdCustomPaths]
  | cons g rest ih =>
      obtain ⟨q, ms⟩ := g
      intro acc hdisj hwf hac
      obtain ⟨hq_ne, hq_cust⟩ := hac (q, ms) (List.mem_cons_self _ _)
      obtain ⟨hout, hin⟩ := hwf
      simp only [keysOf, List.map_cons, List.nodup_cons] at hout
      have hqacc : q ∉ keysOf acc := hdisj q (by simp [keysOf])
      have hms : readdMethods q ms acc = acc ++ [(q, ms)] := by
        cases ms with
        | nil => exact absurd rfl hq_ne
        | cons me ms' =>
            obtain ⟨m, e⟩ := me
            have hce : entryIsCustom e = true := hq_cust (m, e) (List.mem_cons_self _ _)
            simp only [readdMethods, hce, if_pos]
            have hfirst : pathsSet acc q m e = acc ++ [(q, [(m, e)])] := by
              unfold pathsSet
              rw [(alistGet_eq_none_iff acc q).mpr hqacc]
              simp only [Option.getD_none]
              rw [alistSet_fresh acc q _ hqacc]
              rfl
            rw [hfirst]
            have hnd : (keysOf ([(m, e)] ++ ms')).Nodup := by
              simpa [keysOf] using hin (q, (m, e) :: ms') (List.mem_cons_self _ _)
            have := readdMethods_build q ms' [(m, e)] acc hqacc hnd
              (fun x hx => hq_cust x (List.mem_cons_of_mem _ hx))
            simpa using this
      simp only [readdCustomPaths]
      rw [hms]
      have hdisj' : ∀ k ∈ keysOf rest, k ∉ keysOf (acc ++ [(q, ms)]) := by
        intro k hk
        simp only [keysOf, List.map_append, List.map_cons, List.map_nil, List.mem_append,
          List.mem_singleton, not_or]
        constructor
        · exact hdisj k (by simp [keysOf]; exact Or.inr (by simpa [keysOf] using hk))
        · intro hkq
          subst hkq
          exact hout.1 (by simpa [keysOf] using hk)
      have := ih (acc ++ [(q, ms)]) hdisj'
        ⟨by simpa [keysOf] using hout.2, fun g hg => hin g (List.mem_cons_of_mem _ hg)⟩
        (fun g hg => hac g (List.mem_cons_of_mem _ hg))
      rw [this]
      simp

/-- Overwriting an absent-or-non-custom verb entry with a non-custom one
does not change what the re-add pass produces. -/
theorem readdMethods_set_noncustom (pk m : String) (e' : Json)
    (he : entryIsCustom e' = false) :
    ∀ (ms : MethodMap) (acc : Paths),
      (∀ e0, alistGet ms m = some e0 → entryIsCustom e0 = false) →
      readdMethods pk (alistSet ms m e') acc = readdMethods pk ms acc := by
  intro ms
  induction ms with
  | nil =>
      intro acc _
      simp [alistSet, readdMethods, he]
  | cons me rest ih =>
      obtain ⟨m1, e1⟩ := me
      intro acc hm
      by_cases h1 : m1 = m
      · subst h1
        have he1 : entryIsCustom e1 = false := hm e1 (by simp [alistGet])
        simp only [alistSet, if_pos rfl, readdMethods, he, he1]
        simp
      · simp only [alistSet, h1, if_false, readdMethods]
        exact ih _ (fun e0 h0 => hm e0 (by simpa [alistGet, h1] using h0))

/-- Replacing one group by another that re-adds identically does not change
what the re-add pass produces. -/
theorem readdCustomPaths_set_group (p : String) (ms' : MethodMap) :
    ∀ (Q acc : Paths) (g : MethodMap), alistGet Q p = some g →
      (∀ acc2, readdMethods p ms' acc2 = readdMethods p g acc2) →
      readdCustomPaths (alistSet Q p ms') acc = readdCustomPaths Q acc := by
  intro Q
  induction Q with
  | nil => intro acc g hget _; simp [alistGet] at hget
  | cons g1 rest ih =>
      obtain ⟨q, msq⟩ := g1
      intro acc g hget hinv
      by_cases h1 : q = p
      · subst h1
        have hgq : msq = g := by simpa [alistGet] using hget
        subst hgq
        simp only [alistSet, if_pos rfl, readdCustomPaths]
        rw [hinv]
      · simp only [alistSet, h1, if_false, readdCustomPaths]
        exact ih _ g (by simpa [alistGet, h1] using hget) hinv

/-- One stack-route iteration adds nothing the re-add pass would keep. -/
theorem readd_addStackStep (cfg : AppConfig) (Q : Paths) (r : StackEntry) :
    ∀ acc, readdCustomPaths (addStackStep cfg Q r) acc = readdCustomPaths Q acc := by
  intro acc
  cases hq : alistGet Q r.path with
  | none =>
      rw [addStackStep_of_none cfg Q r hq]
      rw [readdCustomPaths_append]
      simp [readdCustomPaths, readdMethods, autoEntry_not_custom]
  | some g =>
      cases ht : optTruthy (alistGet g r.method) with
      | true => rw [addStackStep_of_truthy cfg Q r g hq ht]
      | false =>
          rw [addStackStep_of_falsy cfg Q r g hq ht]
          apply readdCustomPaths_set_group r.path _ Q acc g hq
          intro acc2
          apply readdMethods_set_noncustom r.path r.method _
            (autoEntry_not_custom cfg r.path r.method) g acc2
          intro e0 h0
          rw [h0] at ht
          exact entryIsCustom_eq_false_of_falsy e0 (by simpa [optTruthy] using ht)

/-- The whole route-stack pass adds nothing the re-add pass would keep. -/
theorem readd_addStackRoutes (cfg : AppConfig) (stack : List StackEntry) :
    ∀ (Q acc : Paths),
      readdCustomPaths (addStackRoutes cfg Q stack) acc = readdCustomPaths Q acc := by
  induction stack with
  | nil => intro Q acc; rfl
  | cons r rest ih =>
      intro Q acc
      simp only [addStackRoutes]
      rw [ih]
      exact readd_addStackStep cfg Q r acc

/-- Claim C2: regeneration is idempotent — running
`autoGenerateOpenApiSpec` twice with no registry mutation in between yields
a document identical (hence byte-identical once serialized) to running it
once, for every document and route-stack state. -/
theorem C2_regenerate_idempotent (cfg : AppConfig) (stack : List StackEntry)
    (spec : OpenSpecDoc) :
    autoGenerateOpenApiSpec cfg stack (autoGenerateOpenApiSpec cfg stack spec) =
      autoGenerateOpenApiSpec cfg stack spec := by
  have hwfac := readdCustomPaths_wf_allcustom spec.paths []
    ⟨⟨List.nodup_nil, by intro g hg; simp at hg⟩, by intro g hg; simp at hg⟩
  have hfix : readdCustomPaths (readdCustomPaths spec.paths []) [] =
      readdCustomPaths spec.paths [] := by
    have := readdCustomPaths_fixpoint (readdCustomPaths spec.paths []) []
      (by intro k _ hk; simp [keysOf] at hk) hwfac.1 hwfac.2
    simpa using this
  have key : addStackRoutes cfg (readdCustomPaths
      (addStackRoutes cfg (readdCustomPaths spec.paths []) stack) []) stack =
      addStackRoutes cfg (readdCustomPaths spec.paths []) stack := by
    rw [readd_addStackRoutes cfg stack _ [], hfix]
  show ({ spec with paths := addStackRoutes cfg (readdCustomPaths
      (addStackRoutes cfg (readdCustomPaths spec.paths []) stack) []) stack } : OpenSpecDoc) =
    { spec with paths := addStackRoutes cfg (readdCustomPaths spec.paths []) stack }
  rw [key]

/-! Claims C6 and C9: object-route registration. -/

/-- The state evolution of one valid iteration of the verb loop. -/
def verbStepState (ctx : VerbCtx) (m : String) (s : RegState) : RegState :=
  let methodLower := (jsToLower m)
  let s := { s with routeStack :=
    s.routeStack ++ [StackEntry.mk ctx.routePath methodLower ctx.routeName] }
  let s := match ctx.openapi with
    | some oa => { s with spec := addOpenApiPath ctx.routePath methodLower oa ctx.validate s.spec }
    | none => s
  { s with spec := autoGenerateOpenApiSpec ctx.cfg s.routeStack s.spec }

theorem processVerbs_cons_valid (ctx : VerbCtx) (m : String) (rest : List String)
    (lr : List MountedRoute) (s : RegState) (hm : isRouterMethod (jsToLower m) = true) :
    processVerbs ctx (m :: rest) lr s =
      processVerbs ctx rest
        (lr ++ [MountedRoute.mk ctx.routePath (jsToLower m) ctx.allMiddlewares ctx.handler])
        (verbStepState ctx m s) := by
  simp only [processVerbs, verbStepState, hm, if_true]

theorem processVerbs_cons_invalid (ctx : VerbCtx) (m : String) (rest : List String)
    (lr : List MountedRoute) (s : RegState) (hm : isRouterMethod (jsToLower m) = false) :
    processVerbs ctx (m :: rest) lr s = ((lr, s), .error ("Invalid HTTP method: " ++ m)) := by
  simp only [processVerbs, hm, Bool.false_eq_true, if_false]

theorem verbStepState_routerEntries (ctx : VerbCtx) (m : String) (s : RegState) :
    (verbStepState ctx m s).routerEntries = s.routerEntries := by
  cases ho : ctx.openapi <;> simp [verbStepState, ho]

theorem verbStepState_routes (ctx : VerbCtx) (m : String) (s : RegState) :
    (verbStepState ctx m s).routes = s.routes := by
  cases ho : ctx.openapi <;> simp [verbStepState, ho]

theorem verbStepState_middlewares (ctx : VerbCtx) (m : String) (s : RegState) :
    (verbStepState ctx m s).middlewares = s.middlewares := by
  cases ho : ctx.openapi <;> simp [verbStepState, ho]

theorem verbStepState_plugins (ctx : VerbCtx) (m : String) (s : RegState) :
    (verbStepState ctx m s).plugins = s.plugins := by
  cases ho : ctx.openapi <;> simp [verbStepState, ho]

theorem verbStepState_routeStack (ctx : VerbCtx) (m : String) (s : RegState) :
    (verbStepState ctx m s).routeStack =
      s.routeStack ++ [StackEntry.mk ctx.routePath (jsToLower m) ctx.routeName] := by
  cases ho : ctx.openapi <;> simp [verbStepState, ho]

theorem verbStepState_spec (ctx : VerbCtx) (m : String) (s : RegState) :
    ∃ d : OpenSpecDoc, (verbStepState ctx m s).spec =
      autoGenerateOpenApiSpec ctx.cfg (verbStepState ctx m s).routeStack d := by
  cases ho : ctx.openapi with
  | none => exact ⟨s.spec, by simp [verbStepState, ho]⟩
  | some oa =>
      exact ⟨addOpenApiPath ctx.routePath (jsToLower m) oa ctx.validate s.spec,
        by simp [verbStepState, ho]⟩

/-- The verb loop only ever touches the route stack and the document. -/
theorem processVerbs_preserves (ctx : VerbCtx) (methods : List String) :
    ∀ (lr : List MountedRoute) (s : RegState),
      (processVerbs ctx methods lr s).1.2.routerEntries = s.routerEntries ∧
      (processVerbs ctx methods lr s).1.2.routes = s.routes ∧
      (processVerbs ctx methods lr s).1.2.middlewares = s.middlewares ∧
      (processVerbs ctx methods lr s).1.2.plugins = s.plugins := by
  induction methods with
  | nil => intro lr s; exact ⟨rfl, rfl, rfl, rfl⟩
  | cons m rest ih =>
      intro lr s
      cases hm : isRouterMethod (jsToLower m) with
      | true =>
          rw [processVerbs_cons_valid ctx m rest lr s hm]
          obtain ⟨i1, i2, i3, i4⟩ := ih
            (lr ++ [MountedRoute.mk ctx.routePath (jsToLower m) ctx.allMiddlewares ctx.handler])
            (verbStepState ctx m s)
          exact ⟨by rw [i1, verbStepState_routerEntries],
                 by rw [i2, verbStepState_routes],
                 by rw [i3, verbStepState_middlewares],
                 by rw [i4, verbStepState_plugins]⟩
      | false =>
          rw [processVerbs_cons_invalid ctx m rest lr s hm]
          exact ⟨rfl, rfl, rfl, rfl⟩

/-- A successful verb loop mounts one registration per verb, in order, each
with the chain computed before the loop, and pushes one stack entry per
verb. -/
theorem processVerbs_ok (ctx : VerbCtx) (methods : List String) :
    ∀ (lr : List MountedRoute) (s : RegState) (lr' : List MountedRoute) (s' : RegState),
      processVerbs ctx methods lr s = ((lr', s'), .ok ()) →
      lr' = lr ++ methods.map (fun m =>
        MountedRoute.mk ctx.routePath (jsToLower m) ctx.allMiddlewares ctx.handler) ∧
      s'.routeStack = s.routeStack ++ methods.map (fun m =>
        StackEntry.mk ctx.routePath (jsToLower m) ctx.routeName) := by
  induction methods with
  | nil =>
      intro lr s lr' s' h
      simp only [processVerbs, Prod.mk.injEq] at h
      obtain ⟨⟨h1, h2⟩, _⟩ := h
      exact ⟨by simp [← h1], by simp [← h2]⟩
  | cons m rest ih =>
      intro lr s lr' s' h
      cases hm : isRouterMethod (jsToLower m) with
      | true =>
          rw [processVerbs_cons_valid ctx m rest lr s hm] at h
          obtain ⟨h1, h2⟩ := ih _ _ _ _ h
          refine ⟨by rw [h1]; simp, ?_⟩
          rw [h2, verbStepState_routeStack]
          simp
      | false =>
          rw [processVerbs_cons_invalid ctx m rest lr s hm] at h
          simp at h

theorem processVerbs_ok_of_valid (ctx : VerbCtx) (methods : List String) :
    ∀ (lr : List MountedRoute) (s : RegState),
      (∀ m ∈ methods, isRouterMethod (jsToLower m) = true) →
      (processVerbs ctx methods lr s).2 = .ok () := by
  induction methods with
  | nil => intro lr s _; rfl
  | cons m rest ih =>
      intro lr s hval
      rw [processVerbs_cons_valid ctx m rest lr s (hval m (List.mem_cons_self _ _))]
      exact ih _ _ (fun x hx => hval x (List.mem_cons_of_mem _ hx))

/-- The `allMiddlewares` chain computed at the top of
`registerObjectRoute`: globals ++ declared ++ validation-if-present. -/
def buildChain (s : RegState) (mws : List Mw) (v : Option ValidateSpec) : List Mw :=
  getGlobalMiddlewares s ++ mws ++
    (match v with
     | some vv => [createValidationMiddleware vv]
     | none => [])

/-- The verb-loop context assembled by `registerObjectRoute`. -/
def objCtx (cfg : AppConfig) (p : Option String) (mws : List Mw) (v : Option ValidateSpec)
    (oa : Option (List (String × Json))) (h : HandlerFn) (filePath : String)
    (s : RegState) : VerbCtx :=
  VerbCtx.mk cfg (p.getD "/") (buildChain s mws v) h (extractRouteName filePath) oa v

/-- `registerObjectRoute` on a plugin-free declaration with a function
handler, reduced to the verb loop and the final bookkeeping. -/
theorem registerObjectRoute_no_plugin (cfg : AppConfig) (p : Option String) (me : MethodDecl)
    (hfn : HandlerFn) (mws : List Mw) (v : Option ValidateSpec)
    (oa : Option (List (String × Json))) (filePath : String) (s : RegState) :
    registerObjectRoute cfg (.mk p me (.fn hfn) mws v oa none) filePath s =
      (match processVerbs (objCtx cfg p mws v oa hfn filePath s) (normalizeMethods me) [] s with
       | ((_, s2), .error e) => (s2, .error e)
       | ((lr, s2), .ok ()) =>
           let rv := RouteVal.mk filePath "object"
             (some (.mk p me (.fn hfn) mws v oa none))
           let s3 := { s2 with routes := alistSet s2.routes (extractRouteName filePath) rv }
           ({ s3 with routerEntries := s3.routerEntries ++ lr }, .ok ())) := by
  unfold registerObjectRoute objCtx buildChain
  simp only []

/-- After regeneration the document has a truthy entry for every route of
the stack it was regenerated from. -/
theorem autoGen_member_truthy (cfg : AppConfig) (stack : List StackEntry) (spec : OpenSpecDoc) :
    ∀ r ∈ stack, optTruthy (pathsLookup (autoGenerateOpenApiSpec cfg stack spec).paths
      r.path r.method) = true := by
  intro r hr
  exact addStackRoutes_member_truthy cfg stack _ r hr

/-- Claim C6: for every object-route registration whose declared verbs are
all valid (and that carries no plugin), registration succeeds and installs,
for each verb, the pre-handler chain: global middlewares in registration
order, then the route's declared middlewares in declaration order, then the
synthesized validation middleware exactly when a validation spec was
supplied — the validation middleware, when present, is last, immediately
before the terminal handler. -/
theorem C6_middleware_chain (cfg : AppConfig) (rc : RouteConfig) (filePath : String)
    (s : RegState) (h : HandlerFn)
    (hh : rc.handler = .fn h) (hp : rc.plugin = none)
    (hval : ∀ m ∈ normalizeMethods rc.method, isRouterMethod (jsToLower m) = true) :
    (registerObjectRoute cfg rc filePath s).2 = .ok () ∧
    (registerObjectRoute cfg rc filePath s).1.routerEntries =
      s.routerEntries ++ (normalizeMethods rc.method).map (fun m =>
        MountedRoute.mk (rc.path.getD "/") (jsToLower m)
          (getGlobalMiddlewares s ++ rc.middlewares ++
            (match rc.validate with
             | some vv => [createValidationMiddleware vv]
             | none => [])) h) := by
  cases rc with
  | mk p me hf mws v oa pl =>
      simp only [RouteConfig.handler] at hh
      simp only [RouteConfig.plugin] at hp
      subst hh
      subst hp
      simp only [RouteConfig.path, RouteConfig.method, RouteConfig.middlewares,
        RouteConfig.validate] at hval ⊢
      rw [registerObjectRoute_no_plugin]
      rcases hpv : processVerbs (objCtx cfg p mws v oa h filePath s)
          (normalizeMethods me) [] s with ⟨⟨lr', s2⟩, res2⟩
      have hok2 : res2 = .ok () := by
        have hv := processVerbs_ok_of_valid (objCtx cfg p mws v oa h filePath s)
          (normalizeMethods me) [] s hval
        rw [hpv] at hv
        exact hv
      subst hok2
      refine ⟨rfl, ?_⟩
      obtain ⟨hlr, _⟩ := processVerbs_ok (objCtx cfg p mws v oa h filePath s)
        (normalizeMethods me) [] s lr' s2 hpv
      have hre := (processVerbs_preserves (objCtx cfg p mws v oa h filePath s)
        (normalizeMethods me) [] s).1
      rw [hpv] at hre
      show s2.routerEntries ++ lr' = _
      rw [hre, hlr]
      simp [objCtx, buildChain]

/-- The verb loop hitting an unknown verb after a run of valid verbs:
the error names the bad verb, the valid prefix's stack entries persist,
and (when the prefix is non-empty) the final document has an entry for
every route of the final stack. -/
theorem processVerbs_fail (ctx : VerbCtx) :
    ∀ (ms : List String) (bad : String) (rest : List String) (lr : List MountedRoute)
      (s : RegState), (∀ m ∈ ms, isRouterMethod (jsToLower m) = true) →
      isRouterMethod (jsToLower bad) = false →
      (processVerbs ctx (ms ++ bad :: rest) lr s).2 =
        .error ("Invalid HTTP method: " ++ bad) ∧
      (processVerbs ctx (ms ++ bad :: rest) lr s).1.2.routeStack =
        s.routeStack ++ ms.map (fun m => StackEntry.mk ctx.routePath (jsToLower m) ctx.routeName) ∧
      (ms ≠ [] → ∀ r ∈ (processVerbs ctx (ms ++ bad :: rest) lr s).1.2.routeStack,
        optTruthy (pathsLookup ((processVerbs ctx (ms ++ bad :: rest) lr s).1.2.spec.paths)
          r.path r.method) = true) := by
  intro ms
  induction ms with
  | nil =>
      intro bad rest lr s _ hbad
      rw [List.nil_append, processVerbs_cons_invalid ctx bad rest lr s hbad]
      exact ⟨rfl, by simp, fun hne => absurd rfl hne⟩
  | cons m ms' ih =>
      intro bad rest lr s hval hbad
      have hm := hval m (List.mem_cons_self _ _)
      rw [List.cons_append, processVerbs_cons_valid ctx m (ms' ++ bad :: rest) lr s hm]
      obtain ⟨e1, e2, e3⟩ := ih bad rest
        (lr ++ [MountedRoute.mk ctx.routePath (jsToLower m) ctx.allMiddlewares ctx.handler])
        (verbStepState ctx m s)
        (fun x hx => hval x (List.mem_cons_of_mem _ hx)) hbad
      refine ⟨e1, ?_, ?_⟩
      · rw [e2, verbStepState_routeStack]
        simp
      · intro _ r hr
        cases ms' with
        | cons m2 ms2 => exact e3 (by simp) r hr
        | nil =>
            rw [List.nil_append, processVerbs_cons_invalid ctx bad rest _ _ hbad] at hr ⊢
            obtain ⟨d, hd⟩ := verbStepState_spec ctx m s
            show optTruthy (pathsLookup (verbStepState ctx m s).spec.paths r.path r.method) = true
            rw [hd]
            exact autoGen_member_truthy ctx.cfg _ d r hr

/-- Claim C9: an object declaration whose verb list has a valid prefix
followed by an unknown verb fails with the invalid-method error for that
verb, yet the earlier verbs' route-stack entries persist and the document
still carries an entry for each of them; the `routes` record and the
router mount, which only happen after the loop, never happen. -/
theorem C9_multi_verb_non_atomic (cfg : AppConfig) (rc : RouteConfig) (filePath : String)
    (s : RegState) (h : HandlerFn) (ms rest : List String) (bad : String)
    (hh : rc.handler = .fn h) (hp : rc.plugin = none)
    (hsplit : normalizeMethods rc.method = ms ++ bad :: rest)
    (hval : ∀ m ∈ ms, isRouterMethod (jsToLower m) = true)
    (hbad : isRouterMethod (jsToLower bad) = false) :
    (registerObjectRoute cfg rc filePath s).2 = .error ("Invalid HTTP method: " ++ bad) ∧
    (registerObjectRoute cfg rc filePath s).1.routeStack =
      s.routeStack ++ ms.map (fun m =>
        StackEntry.mk (rc.path.getD "/") (jsToLower m) (extractRouteName filePath)) ∧
    (registerObjectRoute cfg rc filePath s).1.routes = s.routes ∧
    (registerObjectRoute cfg rc filePath s).1.routerEntries = s.routerEntries ∧
    (∀ m ∈ ms, optTruthy (pathsLookup
      (registerObjectRoute cfg rc filePath s).1.spec.paths
      (rc.path.getD "/") (jsToLower m)) = true) := by
  cases rc with
  | mk p me hf mws v oa pl =>
      simp only [RouteConfig.handler] at hh
      simp only [RouteConfig.plugin] at hp
      subst hh
      subst hp
      simp only [RouteConfig.method] at hsplit
      simp only [RouteConfig.path]
      rw [registerObjectRoute_no_plugin, hsplit]
      rcases hpv : processVerbs (objCtx cfg p mws v oa h filePath s)
          (ms ++ bad :: rest) [] s with ⟨⟨lr', s2⟩, res2⟩
      obtain ⟨e1, e2, e3⟩ := processVerbs_fail (objCtx cfg p mws v oa h filePath s)
        ms bad rest [] s hval hbad
      rw [hpv] at e1 e2 e3
      have hres2 : res2 = .error ("Invalid HTTP method: " ++ bad) := e1
      subst hres2
      have hpre := processVerbs_preserves (objCtx cfg p mws v oa h filePath s)
        (ms ++ bad :: rest) [] s
      rw [hpv] at hpre
      have e2' : s2.routeStack = s.routeStack ++ ms.map (fun m =>
          StackEntry.mk (p.getD "/") (jsToLower m) (extractRouteName filePath)) := by
        simpa [objCtx] using e2
      refine ⟨rfl, e2', hpre.2.1, hpre.1, ?_⟩
      intro m hm
      have hmem : StackEntry.mk (p.getD "/") (jsToLower m) (extractRouteName filePath) ∈
          s2.routeStack := by
        rw [e2']
        exact List.mem_append_right _ (List.mem_map_of_mem _ hm)
      have := e3 (List.ne_nil_of_mem hm) _ hmem
      exact this

/-- A middleware value that always passes control on. -/
def mwPass : Mw := fun _ => .next

/-- A state with one registered global middleware. -/
def stateWithGlobal : RegState :=
  { initRegState with middlewares := [("g1", mwPass)] }

/-- An object declaration with one valid verb, one declared middleware and
a validation spec. -/
def rcChain : RouteConfig :=
  .mk (some "/w") (.many ["GET"]) (.fn (HandlerFn.mk 7)) [mwPass] (some bodyOnlySpec) none none

/-- Claim C6, witness: the chain theorem applied to a concrete declaration
over a state with one global middleware. -/
theorem C6_middleware_chain_witness :
    (registerObjectRoute (AppConfig.mk none) rcChain "routes/w.js" stateWithGlobal).2 =
      .ok () ∧
    (registerObjectRoute (AppConfig.mk none) rcChain "routes/w.js"
        stateWithGlobal).1.routerEntries =
      stateWithGlobal.routerEntries ++ (normalizeMethods rcChain.method).map (fun m =>
        MountedRoute.mk (rcChain.path.getD "/") (jsToLower m)
          (getGlobalMiddlewares stateWithGlobal ++ rcChain.middlewares ++
            (match rcChain.validate with
             | some vv => [createValidationMiddleware vv]
             | none => [])) (HandlerFn.mk 7)) :=
  C6_middleware_chain (AppConfig.mk none) rcChain "routes/w.js" stateWithGlobal
    (HandlerFn.mk 7) rfl rfl (by decide)

/-- An object declaration listing a valid verb before an unknown one. -/
def rcBadVerb : RouteConfig :=
  .mk (some "/w") (.many ["get", "teapot"]) (.fn (HandlerFn.mk 1)) [] none none none

/-- Claim C9, witness: the non-atomicity theorem applied to the concrete
declaration `{method: ['get', 'teapot']}`. -/
theorem C9_multi_verb_non_atomic_witness :
    (registerObjectRoute (AppConfig.mk none) rcBadVerb "routes/w.js" initRegState).2 =
      .error ("Invalid HTTP method: " ++ "teapot") ∧
    (registerObjectRoute (AppConfig.mk none) rcBadVerb "routes/w.js"
        initRegState).1.routeStack =
      initRegState.routeStack ++ (["get"] : List String).map (fun m =>
        StackEntry.mk (rcBadVerb.path.getD "/") (jsToLower m) (extractRouteName "routes/w.js")) ∧
    (registerObjectRoute (AppConfig.mk none) rcBadVerb "routes/w.js" initRegState).1.routes =
      initRegState.routes ∧
    (registerObjectRoute (AppConfig.mk none) rcBadVerb "routes/w.js"
        initRegState).1.routerEntries = initRegState.routerEntries ∧
    (∀ m ∈ (["get"] : List String), optTruthy (pathsLookup
      (registerObjectRoute (AppConfig.mk none) rcBadVerb "routes/w.js" initRegState).1.spec.paths
      (rcBadVerb.path.getD "/") (jsToLower m)) = true) :=
  C9_multi_verb_non_atomic (AppConfig.mk none) rcBadVerb "routes/w.js" initRegState
    (HandlerFn.mk 1) ["get"] [] "teapot" rfl rfl rfl (by decide) (by decide)

/-! Claim C8: plugin dependency ordering. -/

/-- The dependency loop fails at the first dependency missing from the
plugin registry, with that dependency's name in the error. -/
theorem checkDeps_error_of_find (plugins : List (String × PluginVal)) :
    ∀ (deps : List String) (d : String),
      deps.find? (fun x => (alistGet plugins x).isNone) = some d →
      checkDeps plugins deps = .error ("Plugin dependency not found: " ++ d) := by
  intro deps
  induction deps with
  | nil => intro d h; simp [List.find?] at h
  | cons d1 rest ih =>
      intro d h
      cases h1 : (alistGet plugins d1).isNone with
      | true =>
          rw [List.find?] at h
          rw [h1] at h
          simp at h
          subst h
          simp only [checkDeps]
          rw [if_neg (by simp [Option.isNone_iff_eq_none.mp h1])]
      | false =>
          rw [List.find?] at h
          rw [h1] at h
          simp at h
          simp only [checkDeps]
          rw [if_pos (by
            cases ho : alistGet plugins d1 with
            | none => rw [ho] at h1; simp at h1
            | some v => rfl)]
          exact ih d h

/-- `registerPlugin` reduced to its sequential checks and effects. -/
theorem registerPlugin_eq (cfg : AppConfig) (pcName pcVersion : Option String)
    (pcDeps : List String) (pcInit : Option (Except String Unit)) (pcMw : Option Mw)
    (pcRoutes : Option (List RouteConfig)) (routeName : String) (s : RegState) :
    registerPlugin cfg (.mk pcName pcVersion pcDeps pcInit pcMw pcRoutes) routeName s =
      (if pcName = none ∨ pcName = some "" then (s, .error "Plugin must have a name")
       else
         match checkDeps s.plugins pcDeps with
         | .error e => (s, .error e)
         | .ok () =>
             match initHookFailure pcInit with
             | some e => (s, .error e)
             | none =>
                 let name := pcName.getD ""
                 let s1 := match pcMw with
                   | some mw => registerMiddleware s (name ++ "_middleware") mw
                   | none => s
                 recordPlugin name pcVersion pcDeps routeName
                   (match pcRoutes with
                    | some rs => registerPluginRoutes cfg rs name s1
                    | none => (s1, .ok ()))) := by
  unfold registerPlugin
  simp only []

/-- A successful registration of a plugin without nested routes: registry
effects are the optional middleware plus the final plugin record. -/
theorem registerPlugin_simple_ok (cfg : AppConfig) (nm : String) (ver : Option String)
    (deps : List String) (ini : Option (Except String Unit)) (mw : Option Mw)
    (routeName : String) (s : RegState)
    (hnm : nm ≠ "") (hdeps : checkDeps s.plugins deps = .ok ())
    (hini : ∀ e, ini ≠ some (.error e)) :
    (registerPlugin cfg (.mk (some nm) ver deps ini mw none) routeName s).2 = .ok () ∧
    ∃ s1 : RegState, s1.plugins = s.plugins ∧
      (registerPlugin cfg (.mk (some nm) ver deps ini mw none) routeName s).1.plugins =
        alistSet s1.plugins nm (PluginVal.mk nm (ver.getD "1.0.0") deps routeName) := by
  rw [registerPlugin_eq]
  rw [if_neg (by simp [hnm])]
  rw [hdeps]
  have hif : initHookFailure ini = none := by
    cases ini with
    | none => rfl
    | some r =>
        cases r with
        | error e => exact absurd rfl (hini e)
        | ok u => rfl
  rw [hif]
  cases mw with
  | some mwf =>
      exact ⟨rfl, ⟨registerMiddleware s (nm ++ "_middleware") mwf, rfl, rfl⟩⟩
  | none =>
      exact ⟨rfl, ⟨s, rfl, rfl⟩⟩

/-- Claim C8: a plugin declaring a dependency on a name not yet in the
plugin registry fails with the dependency-not-found error and leaves the
state unchanged (in particular the plugin is not recorded); registering
the dependency first and then the dependent plugin succeeds and records
both — dependencies must already be registered at registration time. -/
theorem C8_plugin_dependency_ordering :
    (∀ (cfg : AppConfig) (pc : PluginConfig) (routeName : String) (s : RegState)
       (n d : String), pc.name = some n → n ≠ "" →
       pc.dependencies.find? (fun x => (alistGet s.plugins x).isNone) = some d →
       registerPlugin cfg pc routeName s =
         (s, .error ("Plugin dependency not found: " ++ d))) ∧
    (∀ (cfg : AppConfig) (a b : PluginConfig) (rnA rnB : String) (s : RegState)
       (na nb : String),
       a.name = some na → na ≠ "" → a.dependencies = [] →
       (∀ e, a.initHook ≠ some (.error e)) → a.routes = none →
       b.name = some nb → nb ≠ "" → b.dependencies = [na] →
       (∀ e, b.initHook ≠ some (.error e)) → b.routes = none →
       (registerPlugin cfg a rnA s).2 = .ok () ∧
       (registerPlugin cfg b rnB (registerPlugin cfg a rnA s).1).2 = .ok () ∧
       (alistGet (registerPlugin cfg b rnB
         (registerPlugin cfg a rnA s).1).1.plugins na).isSome = true ∧
       (alistGet (registerPlugin cfg b rnB
         (registerPlugin cfg a rnA s).1).1.plugins nb).isSome = true) := by
  constructor
  · intro cfg pc routeName s n d hn hne hfind
    cases pc with
    | mk pcName pcVersion pcDeps pcInit pcMw pcRoutes =>
        simp only [PluginConfig.name] at hn
        simp only [PluginConfig.dependencies] at hfind
        subst hn
        rw [registerPlugin_eq]
        rw [if_neg (by simp [hne])]
        rw [checkDeps_error_of_find s.plugins pcDeps d hfind]
  · intro cfg a b rnA rnB s na nb ha1 ha2 ha3 ha4 ha5 hb1 hb2 hb3 hb4 hb5
    cases a with
    | mk aName aVer aDeps aInit aMw aRoutes =>
        simp only [PluginConfig.name] at ha1
        simp only [PluginConfig.dependencies] at ha3
        simp only [PluginConfig.initHook] at ha4
        simp only [PluginConfig.routes] at ha5
        subst ha1; subst ha3; subst ha5
        obtain ⟨hokA, sA1, hsA1, hsAplug⟩ :=
          registerPlugin_simple_ok cfg na aVer [] aInit aMw rnA s ha2 rfl ha4
        cases b with
        | mk bName bVer bDeps bInit bMw bRoutes =>
            simp only [PluginConfig.name] at hb1
            simp only [PluginConfig.dependencies] at hb3
            simp only [PluginConfig.initHook] at hb4
            simp only [PluginConfig.routes] at hb5
            subst hb1; subst hb3; subst hb5
            have hdepsB : checkDeps
                (registerPlugin cfg (.mk (some na) aVer [] aInit aMw none) rnA s).1.plugins
                [na] = .ok () := by
              simp only [checkDeps]
              rw [if_pos ?_]
              rw [hsAplug, alistGet_set, if_pos rfl]
              rfl
            obtain ⟨hokB, sB1, hsB1, hsBplug⟩ :=
              registerPlugin_simple_ok cfg nb bVer [na] bInit bMw rnB
                (registerPlugin cfg (.mk (some na) aVer [] aInit aMw none) rnA s).1
                hb2 hdepsB hb4
            refine ⟨hokA, hokB, ?_, ?_⟩
            · rw [hsBplug, alistGet_set]
              by_cases heq : nb = na
              · rw [if_pos heq]; rfl
              · rw [if_neg heq, hsB1, hsAplug, alistGet_set, if_pos rfl]
                rfl
            · rw [hsBplug, alistGet_set, if_pos rfl]
              rfl

/-- A plugin declaration with no dependencies. -/
def pluginA : PluginConfig := .mk (some "A") none [] none none none

/-- A plugin declaration depending on `pluginA`. -/
def pluginB : PluginConfig := .mk (some "B") none ["A"] none none none

/-- Claim C8, witness: registering B first fails with the
dependency-not-found error and changes nothing; registering A then B
succeeds and records both plugins. -/
theorem C8_plugin_dependency_ordering_witness :
    registerPlugin (AppConfig.mk none) pluginB "r" initRegState =
      (initRegState, .error ("Plugin dependency not found: " ++ "A")) ∧
    ((registerPlugin (AppConfig.mk none) pluginA "r" initRegState).2 = .ok () ∧
     (registerPlugin (AppConfig.mk none) pluginB "r"
       (registerPlugin (AppConfig.mk none) pluginA "r" initRegState).1).2 = .ok () ∧
     (alistGet (registerPlugin (AppConfig.mk none) pluginB "r"
       (registerPlugin (AppConfig.mk none) pluginA "r" initRegState).1).1.plugins
       "A").isSome = true ∧
     (alistGet (registerPlugin (AppConfig.mk none) pluginB "r"
       (registerPlugin (AppConfig.mk none) pluginA "r" initRegState).1).1.plugins
       "B").isSome = true) :=
  ⟨C8_plugin_dependency_ordering.1 (AppConfig.mk none) pluginB "r" initRegState "B" "A"
     rfl (by decide) (by decide),
   C8_plugin_dependency_ordering.2 (AppConfig.mk none) pluginA pluginB "r" "r" initRegState
     "A" "B" rfl (by decide) rfl
     (by intro e h; simp [pluginA, PluginConfig.initHook] at h) rfl
     rfl (by decide) rfl
     (by intro e h; simp [pluginB, PluginConfig.initHook] at h) rfl⟩

/-! Claims C3 and C4: directory loading. -/

/-- Syntactic well-formedness of a plugin-free object declaration: a
function handler and only known verbs (exactly the conditions under which
its registration succeeds). -/
def rcWF (rc : RouteConfig) : Bool :=
  (match rc.handler with
   | .fn _ => true
   | _ => false) &&
  (normalizeMethods rc.method).all (fun m => isRouterMethod (jsToLower m)) &&
  rc.plugin.isNone

/-- Well-formedness of a candidate module. -/
def fileWF (f : ModFile) : Bool :=
  match f.shape with
  | .fnShape _ => true
  | .objShape rc => rcWF rc
  | .badShape _ => false

/-- Whether a module declares no plugin (the scope of the load theorems). -/
def filePluginFree (f : ModFile) : Bool :=
  match f.shape with
  | .objShape rc => rc.plugin.isNone
  | _ => true

/-- The number of verb×declaration pairs a module contributes. -/
def declVerbPairs (f : ModFile) : Nat :=
  match f.shape with
  | .objShape rc => (normalizeMethods rc.method).length
  | .fnShape fd => fd.regs.length
  | .badShape _ => 0

theorem registerObjectRoute_handler_missing (cfg : AppConfig) (p : Option String)
    (me : MethodDecl) (mws : List Mw) (v : Option ValidateSpec)
    (oa : Option (List (String × Json))) (pl : Option PluginConfig) (filePath : String)
    (s : RegState) :
    registerObjectRoute cfg (.mk p me .missing mws v oa pl) filePath s =
      (s, .error "Route handler must be a function") := by
  unfold registerObjectRoute
  simp only []

theorem registerObjectRoute_handler_notFn (cfg : AppConfig) (p : Option String)
    (me : MethodDecl) (mws : List Mw) (v : Option ValidateSpec)
    (oa : Option (List (String × Json))) (pl : Option PluginConfig) (filePath : String)
    (s : RegState) :
    registerObjectRoute cfg (.mk p me .notFn mws v oa pl) filePath s =
      (s, .error "Route handler must be a function") := by
  unfold registerObjectRoute
  simp only []

/-- The verb loop succeeds exactly when every declared verb is known. -/
theorem processVerbs_ok_iff (ctx : VerbCtx) (methods : List String) :
    ∀ (lr : List MountedRoute) (s : RegState),
      (processVerbs ctx methods lr s).2 = .ok () ↔
      ∀ m ∈ methods, isRouterMethod (jsToLower m) = true := by
  induction methods with
  | nil =>
      intro lr s
      constructor
      · intro _ m hm; simp at hm
      · intro _; rfl
  | cons m rest ih =>
      intro lr s
      cases hm : isRouterMethod (jsToLower m) with
      | true =>
          rw [processVerbs_cons_valid ctx m rest lr s hm]
          constructor
          · intro h x hx
            rcases List.mem_cons.mp hx with hx | hx
            · subst hx; exact hm
            · exact ((ih _ _).mp h) x hx
          · intro h
            exact (ih _ _).mpr (fun x hx => h x (List.mem_cons_of_mem _ hx))
      | false =>
          rw [processVerbs_cons_invalid ctx m rest lr s hm]
          constructor
          · intro h; simp at h
          · intro h
            rw [h m (List.mem_cons_self _ _)] at hm
            simp at hm

theorem verbStepState_log (ctx : VerbCtx) (m : String) (s : RegState) :
    (verbStepState ctx m s).log = s.log := by
  cases ho : ctx.openapi <;> simp [verbStepState, ho]

theorem processVerbs_preserves_log (ctx : VerbCtx) (methods : List String) :
    ∀ (lr : List MountedRoute) (s : RegState),
      (processVerbs ctx methods lr s).1.2.log = s.log := by
  induction methods with
  | nil => intro lr s; rfl
  | cons m rest ih =>
      intro lr s
      cases hm : isRouterMethod (jsToLower m) with
      | true =>
          rw [processVerbs_cons_valid ctx m rest lr s hm]
          rw [ih, verbStepState_log]
      | false =>
          rw [processVerbs_cons_invalid ctx m rest lr s hm]

/-- Effects of loading one well-formed plugin-free module: success, the
module recorded under its derived name, one stack entry per verb, and no
other registry change. -/
theorem loadRouteFile_wf_effects (cfg : AppConfig) (f : ModFile) (s : RegState)
    (hwf : fileWF f = true) (hpf : filePluginFree f = true) :
    (loadRouteFile cfg f s).2 = .ok () ∧
    (∃ rv : RouteVal, (loadRouteFile cfg f s).1.routes =
      alistSet s.routes (extractRouteName f.path) rv) ∧
    (loadRouteFile cfg f s).1.routeStack.length =
      s.routeStack.length + declVerbPairs f ∧
    (loadRouteFile cfg f s).1.log = s.log := by
  obtain ⟨path, shape⟩ := f
  cases shape with
  | fnShape fd =>
      refine ⟨rfl, ⟨RouteVal.mk path "function" none, rfl⟩, ?_, rfl⟩
      simp [loadRouteFile, registerFunctionRoute, declVerbPairs]
  | badShape t => simp [fileWF] at hwf
  | objShape rc =>
      simp only [fileWF, rcWF, Bool.and_eq_true] at hwf
      simp only [filePluginFree] at hpf
      obtain ⟨⟨hhand, hall⟩, _⟩ := hwf
      have hvalid : ∀ m ∈ normalizeMethods rc.method, isRouterMethod (jsToLower m) = true :=
        List.all_eq_true.mp hall
      cases rc with
      | mk p me hf mws v oa pl =>
          have hpl : pl = none := by
            simpa [RouteConfig.plugin, Option.isNone_iff_eq_none] using hpf
          subst hpl
          cases hf with
          | missing => simp [RouteConfig.handler] at hhand
          | notFn => simp [RouteConfig.handler] at hhand
          | fn h =>
              simp only [RouteConfig.method] at hvalid
              simp only [loadRouteFile]
              rw [registerObjectRoute_no_plugin]
              rcases hpv : processVerbs (objCtx cfg p mws v oa h path s)
                  (normalizeMethods me) [] s with ⟨⟨lr', s2⟩, res2⟩
              have hok2 : res2 = .ok () := by
                have hv := (processVerbs_ok_iff (objCtx cfg p mws v oa h path s)
                  (normalizeMethods me) [] s).mpr hvalid
                rw [hpv] at hv
                exact hv
              subst hok2
              obtain ⟨_, hstack⟩ := processVerbs_ok (objCtx cfg p mws v oa h path s)
                (normalizeMethods me) [] s lr' s2 hpv
              have hpre := processVerbs_preserves (objCtx cfg p mws v oa h path s)
                (normalizeMethods me) [] s
              have hlog := processVerbs_preserves_log (objCtx cfg p mws v oa h path s)
                (normalizeMethods me) [] s
              rw [hpv] at hpre hlog
              refine ⟨rfl, ?_, ?_, hlog⟩
              · refine ⟨RouteVal.mk path "object" (some (.mk p me (.fn h) mws v oa none)), ?_⟩
                show alistSet s2.routes (extractRouteName path) _ = _
                rw [show s2.routes = s.routes from hpre.2.1]
              · show s2.routeStack.length = s.routeStack.length + declVerbPairs _
                rw [show s2.routeStack = _ from hstack]
                simp [declVerbPairs, RouteConfig.method, objCtx]

/-- Effects of loading one malformed plugin-free module: some load error,
and no change to the `routes` registry or the log. -/
theorem loadRouteFile_fail_effects (cfg : AppConfig) (f : ModFile) (s : RegState)
    (hwf : fileWF f = false) (hpf : filePluginFree f = true) :
    (∃ e, (loadRouteFile cfg f s).2 = .error e) ∧
    (loadRouteFile cfg f s).1.routes = s.routes ∧
    (loadRouteFile cfg f s).1.log = s.log := by
  obtain ⟨path, shape⟩ := f
  cases shape with
  | fnShape fd => simp [fileWF] at hwf
  | badShape t => exact ⟨⟨_, rfl⟩, rfl, rfl⟩
  | objShape rc =>
      simp only [filePluginFree] at hpf
      cases rc with
      | mk p me hf mws v oa pl =>
          have hpl : pl = none := by
            simpa [RouteConfig.plugin, Option.isNone_iff_eq_none] using hpf
          subst hpl
          cases hf with
          | missing =>
              simp only [loadRouteFile]
              rw [registerObjectRoute_handler_missing]
              exact ⟨⟨_, rfl⟩, rfl, rfl⟩
          | notFn =>
              simp only [loadRouteFile]
              rw [registerObjectRoute_handler_notFn]
              exact ⟨⟨_, rfl⟩, rfl, rfl⟩
          | fn h =>
              simp only [fileWF, rcWF, RouteConfig.handler, RouteConfig.method,
                RouteConfig.plugin, Option.isNone_none, Bool.and_true, Bool.true_and] at hwf
              have hnall : ¬(∀ m ∈ normalizeMethods me,
                  isRouterMethod (jsToLower m) = true) := by
                intro hco
                rw [List.all_eq_true.mpr hco] at hwf
                simp at hwf
              simp only [loadRouteFile]
              rw [registerObjectRoute_no_plugin]
              rcases hpv : processVerbs (objCtx cfg p mws v oa h path s)
                  (normalizeMethods me) [] s with ⟨⟨lr', s2⟩, res2⟩
              have hfail : res2 ≠ .ok () := by
                intro hcon
                apply hnall
                apply (processVerbs_ok_iff (objCtx cfg p mws v oa h path s)
                  (normalizeMethods me) [] s).mp
                rw [hpv, hcon]
              cases res2 with
              | ok u => cases u; exact absurd rfl hfail
              | error e =>
                  have hpre := processVerbs_preserves (objCtx cfg p mws v oa h path s)
                    (normalizeMethods me) [] s
                  have hlog := processVerbs_preserves_log (objCtx cfg p mws v oa h path s)
                    (normalizeMethods me) [] s
                  rw [hpv] at hpre hlog
                  exact ⟨⟨e, rfl⟩, hpre.2.1, hlog⟩

theorem loadRouteFile_log (cfg : AppConfig) (f : ModFile) (s : RegState)
    (hpf : filePluginFree f = true) : (loadRouteFile cfg f s).1.log = s.log := by
  cases hw : fileWF f with
  | false => exact (loadRouteFile_fail_effects cfg f s hw hpf).2.2
  | true => exact (loadRouteFile_wf_effects cfg f s hw hpf).2.2.2

theorem loadRouteFile_routes_isSome_mono (cfg : AppConfig) (f : ModFile) (s : RegState)
    (name : String) (hpf : filePluginFree f = true)
    (hs : (alistGet s.routes name).isSome = true) :
    (alistGet (loadRouteFile cfg f s).1.routes name).isSome = true := by
  cases hw : fileWF f with
  | false =>
      rw [(loadRouteFile_fail_effects cfg f s hw hpf).2.1]
      exact hs
  | true =>
      obtain ⟨_, ⟨rv, hr⟩, _, _⟩ := loadRouteFile_wf_effects cfg f s hw hpf
      rw [hr, alistGet_set]
      by_cases he : extractRouteName f.path = name
      · rw [if_pos he]; rfl
      · rw [if_neg he]; exact hs

/-- Failures settle one by one: the failure count of the settled results is
the number of malformed modules. -/
theorem loadAllSettled_counts (cfg : AppConfig) :
    ∀ (files : List ModFile) (s : RegState),
      (∀ f ∈ files, filePluginFree f = true) →
      ((loadAllSettled cfg files s).2.filter (fun r => r.2.isSome)).length =
        (files.filter (fun f => !fileWF f)).length := by
  intro files
  induction files with
  | nil => intro s _; rfl
  | cons f rest ih =>
      intro s hpf
      have ihr := ih (loadRouteFile cfg f s).1 (fun g hg => hpf g (List.mem_cons_of_mem _ hg))
      simp only [loadAllSettled]
      cases hw : fileWF f with
      | true =>
          obtain ⟨hok, _, _, _⟩ := loadRouteFile_wf_effects cfg f s hw
            (hpf f (List.mem_cons_self _ _))
          rw [hok]
          simp only [List.filter_cons, hw]
          simp [ihr]
      | false =>
          obtain ⟨⟨e, herr⟩, _, _⟩ := loadRouteFile_fail_effects cfg f s hw
            (hpf f (List.mem_cons_self _ _))
          rw [herr]
          simp only [List.filter_cons, hw]
          simp [ihr]

theorem loadAllSettled_log (cfg : AppConfig) :
    ∀ (files : List ModFile) (s : RegState),
      (∀ f ∈ files, filePluginFree f = true) →
      (loadAllSettled cfg files s).1.log = s.log := by
  intro files
  induction files with
  | nil => intro s _; rfl
  | cons f rest ih =>
      intro s hpf
      simp only [loadAllSettled]
      rw [ih _ (fun g hg => hpf g (List.mem_cons_of_mem _ hg))]
      exact loadRouteFile_log cfg f s (hpf f (List.mem_cons_self _ _))

theorem loadAllSettled_mono (cfg : AppConfig) :
    ∀ (files : List ModFile) (s : RegState) (name : String),
      (∀ f ∈ files, filePluginFree f = true) →
      (alistGet s.routes name).isSome = true →
      (alistGet (loadAllSettled cfg files s).1.routes name).isSome = true := by
  intro files
  induction files with
  | nil => intro s name _ hs; exact hs
  | cons f rest ih =>
      intro s name hpf hs
      simp only [loadAllSettled]
      exact ih _ name (fun g hg => hpf g (List.mem_cons_of_mem _ hg))
        (loadRouteFile_routes_isSome_mono cfg f s name (hpf f (List.mem_cons_self _ _)) hs)

/-- Every well-formed module of the batch ends up registered under its
derived name (no rollback). -/
theorem loadAllSettled_registers (cfg : AppConfig) :
    ∀ (files : List ModFile) (s : RegState) (f : ModFile),
      (∀ g ∈ files, filePluginFree g = true) → f ∈ files → fileWF f = true →
      (alistGet (loadAllSettled cfg files s).1.routes (extractRouteName f.path)).isSome
        = true := by
  intro files
  induction files with
  | nil => intro s f _ hf _; simp at hf
  | cons g rest ih =>
      intro s f hpf hf hwf
      simp only [loadAllSettled]
      rcases List.mem_cons.mp hf with hf | hf
      · subst hf
        obtain ⟨_, ⟨rv, hr⟩, _, _⟩ := loadRouteFile_wf_effects cfg f s hwf
          (hpf f (List.mem_cons_self _ _))
        apply loadAllSettled_mono cfg rest _ _ (fun x hx => hpf x (List.mem_cons_of_mem _ hx))
        rw [hr, alistGet_set, if_pos rfl]
        rfl
      · exact ih _ f (fun x hx => hpf x (List.mem_cons_of_mem _ hx)) hf hwf

/-- Every malformed module of the batch settles with its own reason. -/
theorem loadAllSettled_fail_mem (cfg : AppConfig) :
    ∀ (files : List ModFile) (s : RegState) (f : ModFile),
      (∀ g ∈ files, filePluginFree g = true) → f ∈ files → fileWF f = false →
      ∃ e, (f.path, some e) ∈ (loadAllSettled cfg files s).2 := by
  intro files
  induction files with
  | nil => intro s f _ hf _; simp at hf
  | cons g rest ih =>
      intro s f hpf hf hwf
      simp only [loadAllSettled]
      rcases List.mem_cons.mp hf with hf | hf
      · subst hf
        obtain ⟨⟨e, herr⟩, _, _⟩ := loadRouteFile_fail_effects cfg f s hwf
          (hpf f (List.mem_cons_self _ _))
        refine ⟨e, ?_⟩
        rw [herr]
        exact List.mem_cons_self _ _
      · obtain ⟨e, hmem⟩ := ih _ f (fun x hx => hpf x (List.mem_cons_of_mem _ hx)) hf hwf
        exact ⟨e, List.mem_cons_of_mem _ hmem⟩

/-- Loading a batch of well-formed modules with fresh, pairwise distinct
names: one registry key per module, one stack entry per verb pair. -/
theorem loadAllSettled_allwf (cfg : AppConfig) :
    ∀ (files : List ModFile) (s : RegState),
      (∀ f ∈ files, filePluginFree f = true) → (∀ f ∈ files, fileWF f = true) →
      ((files.map (fun f => extractRouteName f.path)).Nodup) →
      (∀ f ∈ files, extractRouteName f.path ∉ keysOf s.routes) →
      keysOf (loadAllSettled cfg files s).1.routes =
        keysOf s.routes ++ files.map (fun f => extractRouteName f.path) ∧
      (loadAllSettled cfg files s).1.routeStack.length =
        s.routeStack.length + (files.map declVerbPairs).sum := by
  intro files
  induction files with
  | nil => intro s _ _ _ _; exact ⟨(List.append_nil _).symm, rfl⟩
  | cons f rest ih =>
      intro s hpf hwf hnd hfresh
      simp only [List.map_cons, List.nodup_cons] at hnd
      simp only [loadAllSettled]
      obtain ⟨_, ⟨rv, hr⟩, hstack, _⟩ := loadRouteFile_wf_effects cfg f s
        (hwf f (List.mem_cons_self _ _)) (hpf f (List.mem_cons_self _ _))
      have hkeys : keysOf (loadRouteFile cfg f s).1.routes =
          keysOf s.routes ++ [extractRouteName f.path] := by
        rw [hr, alistSet_keys, if_neg (hfresh f (List.mem_cons_self _ _))]
      have hfresh' : ∀ g ∈ rest,
          extractRouteName g.path ∉ keysOf (loadRouteFile cfg f s).1.routes := by
        intro g hg
        rw [hkeys]
        simp only [List.mem_append, List.mem_singleton, not_or]
        refine ⟨hfresh g (List.mem_cons_of_mem _ hg), ?_⟩
        intro heq
        exact hnd.1 (heq ▸ List.mem_map_of_mem _ hg)
      obtain ⟨ihk, ihs⟩ := ih (loadRouteFile cfg f s).1
        (fun x hx => hpf x (List.mem_cons_of_mem _ hx))
        (fun x hx => hwf x (List.mem_cons_of_mem _ hx)) hnd.2 hfresh'
      constructor
      · rw [ihk, hkeys]
        simp
      · rw [ihs, hstack]
        simp only [List.map_cons, List.sum_cons]
        omega

/-! Claim C3: aggregate load failure. -/

/-- C3: when at least one candidate module is malformed, `loadRoutesFromDir`
fails with an error whose message carries the malformed-module count
("Failed to load N route files"), every well-formed module's route remains
registered and queryable through `getRouteInfo` (no rollback), and each
malformed module's per-file reason is written to the log (the thrown error
itself carries only the count). -/
theorem C3_aggregate_load (cfg : AppConfig) (files : List ModFile) (s : RegState)
    (hpf : ∀ f ∈ files, filePluginFree f = true)
    (hbad : 0 < (files.filter (fun f => !fileWF f)).length) :
    (loadRoutesFromDir cfg files s).2 =
      .error ("Failed to load " ++
        toString (files.filter (fun f => !fileWF f)).length ++ " route files") ∧
    (∀ f ∈ files, fileWF f = true →
      (getRouteInfo (loadRoutesFromDir cfg files s).1 (extractRouteName f.path)).isSome
        = true) ∧
    (∀ f ∈ files, fileWF f = false →
      ∃ e, ("Failed to load route file " ++ f.path ++ ": " ++ e) ∈
        (loadRoutesFromDir cfg files s).1.log) := by
  have hc := loadAllSettled_counts cfg files s hpf
  refine ⟨?_, ?_, ?_⟩
  · simp only [loadRoutesFromDir]
    rw [hc, if_pos hbad]
  · intro f hf hwf
    simp only [loadRoutesFromDir]
    rw [hc, if_pos hbad]
    exact loadAllSettled_registers cfg files s f hpf hf hwf
  · intro f hf hwf
    obtain ⟨e, hmem⟩ := loadAllSettled_fail_mem cfg files s f hpf hf hwf
    refine ⟨e, ?_⟩
    simp only [loadRoutesFromDir]
    rw [hc, if_pos hbad]
    refine List.mem_append.mpr (Or.inl (List.mem_append.mpr (Or.inr ?_)))
    exact List.mem_filterMap.mpr ⟨(f.path, some e), hmem, rfl⟩

/-- A configuration with defaulted public paths, used for concrete loads. -/
def cfgLoad : AppConfig := { publicPaths := none }

/-- A mixed directory: one well-formed function module, one malformed
module exporting a string. -/
def filesC3 : List ModFile :=
  [⟨"routes/good.js", .fnShape ⟨[]⟩⟩, ⟨"routes/bad.js", .badShape "string"⟩]

/-- A second directory, malformed for a different reason. -/
def filesC3' : List ModFile :=
  [⟨"routes/good.js", .fnShape ⟨[]⟩⟩, ⟨"routes/bad.js", .badShape "number"⟩]

theorem C3_aggregate_load_witness :
    ((∀ f ∈ filesC3, filePluginFree f = true) ∧
      0 < (filesC3.filter (fun f => !fileWF f)).length) ∧
    ((loadRoutesFromDir cfgLoad filesC3 initRegState).2 =
      .error ("Failed to load " ++
        toString (filesC3.filter (fun f => !fileWF f)).length ++ " route files") ∧
    (∀ f ∈ filesC3, fileWF f = true →
      (getRouteInfo (loadRoutesFromDir cfgLoad filesC3 initRegState).1
        (extractRouteName f.path)).isSome = true) ∧
    (∀ f ∈ filesC3, fileWF f = false →
      ∃ e, ("Failed to load route file " ++ f.path ++ ": " ++ e) ∈
        (loadRoutesFromDir cfgLoad filesC3 initRegState).1.log)) :=
  ⟨⟨by decide, by decide⟩,
    C3_aggregate_load cfgLoad filesC3 initRegState (by decide) (by decide)⟩

/-- C3 counterexample to "the error carries the per-file reasons": two
directories whose modules fail for different reasons produce the very same
error value from `loadRoutesFromDir`, while their settled per-file reasons
differ — the thrown error carries only the count. -/
theorem C3_counterexample_error_drops_reasons :
    (loadRoutesFromDir cfgLoad filesC3 initRegState).2 =
      (loadRoutesFromDir cfgLoad filesC3' initRegState).2 ∧
    (loadAllSettled cfgLoad filesC3 initRegState).2.map Prod.snd ≠
      (loadAllSettled cfgLoad filesC3' initRegState).2.map Prod.snd := by
  constructor
  · rfl
  · decide

/-! Claim C4: route count after an all-well-formed load. -/

/-- C4 (corrected): a directory of well-formed, plugin-free modules with
fresh pairwise-distinct derived names loads successfully; the registry
gains one entry per module (`getRoutesCount` counts modules, not
verb×declaration pairs), while the route stack is what gains one entry
per verb×declaration pair. -/
theorem C4_route_counts (cfg : AppConfig) (files : List ModFile) (s : RegState)
    (hpf : ∀ f ∈ files, filePluginFree f = true)
    (hwf : ∀ f ∈ files, fileWF f = true)
    (hnd : (files.map (fun f => extractRouteName f.path)).Nodup)
    (hfresh : ∀ f ∈ files, extractRouteName f.path ∉ keysOf s.routes) :
    (loadRoutesFromDir cfg files s).2 = .ok () ∧
    getRoutesCount (loadRoutesFromDir cfg files s).1 = getRoutesCount s + files.length ∧
    (loadRoutesFromDir cfg files s).1.routeStack.length =
      s.routeStack.length + (files.map declVerbPairs).sum := by
  have hc := loadAllSettled_counts cfg files s hpf
  have hnil : files.filter (fun f => !fileWF f) = [] := by
    rw [List.filter_eq_nil_iff]
    intro f hf
    simp [hwf f hf]
  have hz : ((loadAllSettled cfg files s).2.filter (fun r => r.2.isSome)).length = 0 := by
    rw [hc, hnil]
    rfl
  obtain ⟨hk, hst⟩ := loadAllSettled_allwf cfg files s hpf hwf hnd hfresh
  refine ⟨?_, ?_, ?_⟩
  · simp only [loadRoutesFromDir]
    rw [hz, if_neg (Nat.lt_irrefl 0)]
  · simp only [loadRoutesFromDir]
    rw [hz, if_neg (Nat.lt_irrefl 0)]
    show (loadAllSettled cfg files s).1.routes.length = s.routes.length + files.length
    have h := congrArg List.length hk
    simpa [keysOf] using h
  · simp only [loadRoutesFromDir]
    rw [hz, if_neg (Nat.lt_irrefl 0)]
    exact hst

/-- A directory with one module declaring two verbs on one declaration. -/
def filesC4 : List ModFile :=
  [⟨"routes/widgets.js",
    .objShape (.mk (some "/api/widgets") (.many ["get", "post"]) (.fn ⟨2⟩) [] none none none)⟩]

/-- C4 counterexample to "route count equals verb×declaration pairs": one
module declaring two verbs loads successfully, contributes two
verb×declaration pairs, yet `getRoutesCount` reports 1. -/
theorem C4_counterexample_count_is_modules :
    (loadRoutesFromDir cfgLoad filesC4 initRegState).2 = .ok () ∧
    (filesC4.map declVerbPairs).sum = 2 ∧
    getRoutesCount (loadRoutesFromDir cfgLoad filesC4 initRegState).1 = 1 ∧
    getRoutesCount (loadRoutesFromDir cfgLoad filesC4 initRegState).1 ≠
      (filesC4.map declVerbPairs).sum := by
  have hpf : ∀ f ∈ filesC4, filePluginFree f = true := by decide
  have hwf : ∀ f ∈ filesC4, fileWF f = true := by decide
  have hc := loadAllSettled_counts cfgLoad filesC4 initRegState hpf
  have hz : ((loadAllSettled cfgLoad filesC4 initRegState).2.filter
      (fun r => r.2.isSome)).length = 0 := by
    rw [hc]
    rfl
  obtain ⟨hk, hst⟩ := loadAllSettled_allwf cfgLoad filesC4 initRegState hpf hwf
    (by decide) (by decide)
  have hlen : (loadAllSettled cfgLoad filesC4 initRegState).1.routes.length = 1 := by
    have h := congrArg List.length hk
    simpa [keysOf, initRegState] using h
  refine ⟨?_, rfl, ?_, ?_⟩
  · simp only [loadRoutesFromDir]
    rw [hz, if_neg (Nat.lt_irrefl 0)]
  · simp only [loadRoutesFromDir]
    rw [hz, if_neg (Nat.lt_irrefl 0)]
    exact hlen
  · simp only [loadRoutesFromDir]
    rw [hz, if_neg (Nat.lt_irrefl 0)]
    show (loadAllSettled cfgLoad filesC4 initRegState).1.routes.length ≠
      (filesC4.map declVerbPairs).sum
    rw [hlen]
    decide

theorem C4_route_counts_witness :
    ((∀ f ∈ filesC4, filePluginFree f = true) ∧ (∀ f ∈ filesC4, fileWF f = true) ∧
      (filesC4.map (fun f => extractRouteName f.path)).Nodup ∧
      (∀ f ∈ filesC4, extractRouteName f.path ∉ keysOf initRegState.routes)) ∧
    ((loadRoutesFromDir cfgLoad filesC4 initRegState).2 = .ok () ∧
      getRoutesCount (loadRoutesFromDir cfgLoad filesC4 initRegState).1 =
        getRoutesCount initRegState + filesC4.length ∧
      (loadRoutesFromDir cfgLoad filesC4 initRegState).1.routeStack.length =
        initRegState.routeStack.length + (filesC4.map declVerbPairs).sum) :=
  ⟨⟨by decide, by decide, by decide, by decide⟩,
    C4_route_counts cfgLoad filesC4 initRegState (by decide) (by decide) (by decide)
      (by decide)⟩
